import Mathlib

/-!
Verification of the ATS keyword-matching and resume-scoring engine of the
smart-resume-builder repository: a shallow embedding, in Lean 4, of
`config/ai/services/enhanced_ats_analyzer.py` (class
`EnhancedATSAnalyzerService`), `backend/config/ai/services/job_matcher.py`
(class `JobMatcherService`) and the helpers they use from
`config/ai/utils.py`, together with proofs of the behavioural claims made
about them.

Modelling conventions:
- Python strings are Lean `String`s and are processed through their
  character lists; the regular expressions used by the source
  (`\b[a-zA-Z]{3,}\b`, `[•\-\*]\s*(.+)`, `\b\d+[%$KMB]?\b`, `[.!?]+`)
  are modelled by explicit character scanners whose behaviour matches
  Python `re` on these patterns.
- Python `float` arithmetic is modelled by exact rational arithmetic (`ℚ`);
  `int(x)` (truncation towards zero) is `pyInt`.  To keep every definition
  kernel-computable, ratios of integer counts are written with
  `Rat.divInt`, i.e. `int((a / b) * 100)` is rendered as
  `pyInt (Rat.divInt (a * 100) b)`, the same rational number.
- A Python `set` of strings is modelled as a duplicate-free list
  (`dedupFirst`, which keeps first occurrences, matching `dict`/`Counter`
  insertion order); only membership and cardinality of these lists are
  relied on, since Python set iteration order is unspecified.
- Python `sorted`/`list.sort` (a stable sort) is modelled by the stable
  insertion sort `pySorted`.
- The external fuzzy-similarity library (rapidfuzz / difflib), the optional
  LLM keyword extractor and the optional `textstat` library are
  environment parameters (`Env`), since they are third-party code outside
  this repository.
-/

namespace ATS

/-! ## Python-semantics helpers -/

/-- Python `int()` applied to an exact rational: truncation towards zero
(`Int.tdiv` of the reduced numerator by the reduced denominator). -/
def pyInt (q : ℚ) : ℤ :=
  q.num.tdiv q.den

/-- Python `min` on rationals: `min(a, b)` returns `a` when `a <= b`. -/
def pyMinQ (a b : ℚ) : ℚ :=
  if a ≤ b then a else b

/-- Python `max` on rationals: `max(a, b)` returns `a` when `b <= a`. -/
def pyMaxQ (a b : ℚ) : ℚ :=
  if b ≤ a then a else b

/-- ASCII alphabetic character, the regex class `[a-zA-Z]`. -/
def isAsciiAlpha (c : Char) : Bool :=
  (97 ≤ c.toNat && c.toNat ≤ 122) || (65 ≤ c.toNat && c.toNat ≤ 90)

/-- ASCII decimal digit, the regex class `\d` on ASCII text. -/
def isAsciiDigit (c : Char) : Bool :=
  48 ≤ c.toNat && c.toNat ≤ 57

/-- Regex word character `\w` (ASCII): letters, digits and underscore.
`\b` holds between a word and a non-word character (or a text edge). -/
def isWordChar (c : Char) : Bool :=
  isAsciiAlpha c || isAsciiDigit c || c = '_'

/-- Python whitespace for `\s` and `str.split()`/`str.strip()` on ASCII
text: space, tab, newline, carriage return, vertical tab, form feed. -/
def isPySpace (c : Char) : Bool :=
  c = ' ' || c = '\t' || c = '\n' || c = '\r' || c = '\x0b' || c = '\x0c'

/-- Python `str.lower()` on ASCII text (`Char.toLower` lowers `A`–`Z`). -/
def lowerString (s : String) : String :=
  String.mk (s.data.map Char.toLower)

/-- Python `str.strip()`: remove leading and trailing whitespace. -/
def pyStrip (s : String) : String :=
  String.mk (((s.data.dropWhile isPySpace).reverse.dropWhile isPySpace).reverse)

/-- Python `str.split()` with no argument: split on whitespace runs and
drop the empty pieces.  `splitRunsAux` is the underlying scanner, which is
also the model of `re.split(r'[.!?]+', text)` (there the empty pieces are
kept, as `re.split` keeps them). -/
def splitRunsAux (p : Char → Bool) (acc : List (List Char)) (cur : List Char)
    (afterSep : Bool) : List Char → List (List Char)
  | [] => (cur.reverse :: acc).reverse
  | c :: cs =>
    if p c then
      if afterSep then splitRunsAux p acc [] true cs
      else splitRunsAux p (cur.reverse :: acc) [] true cs
    else splitRunsAux p acc (c :: cur) false cs

/-- Pieces of `cs` between maximal runs of separator characters
(`re.split` on a `[...]+` pattern keeps empty edge pieces). -/
def splitOnRuns (p : Char → Bool) (cs : List Char) : List (List Char) :=
  splitRunsAux p [] [] false cs

/-- Python `text.split()`: whitespace-separated words. -/
def pyWords (cs : List Char) : List (List Char) :=
  (splitOnRuns isPySpace cs).filter (fun w => !w.isEmpty)

/-- Python `text.split(sep)` for a single-character separator. -/
def splitOnChar (sep : Char) : List Char → List (List Char)
  | [] => [[]]
  | c :: cs =>
    match splitOnChar sep cs with
    | [] => [[]]
    | p :: ps => if c = sep then [] :: p :: ps else (c :: p) :: ps

/-- Scanner behind `re.findall(r'\b[a-zA-Z]+\b', ...)`: emits every maximal
run of ASCII letters whose neighbours (when they exist) are not word
characters.  (A maximal letter run adjacent to a digit or `_` admits no
word boundary at that side, so the pattern cannot match any part of it.)
State: `cur` is the reversed letter run being read, `okL` records whether
the run started after a non-word character or the text edge, `pnw` whether
the previous character was non-word (or the scan is at the text start). -/
def tokenScan (cur : List Char) (okL : Bool) (pnw : Bool) :
    List Char → List (List Char)
  | [] => if !cur.isEmpty && okL then [cur.reverse] else []
  | c :: cs =>
    if isAsciiAlpha c then
      if cur.isEmpty then tokenScan [c] pnw false cs
      else tokenScan (c :: cur) okL false cs
    else
      (if !cur.isEmpty && okL && !isWordChar c then [cur.reverse] else []) ++
        tokenScan [] false (!isWordChar c) cs

/-- `re.findall(r'\b[a-zA-Z]+\b', cs)`. -/
def findallWordRuns (cs : List Char) : List (List Char) :=
  tokenScan [] false true cs

/-- `re.findall(r'\b[a-zA-Z]{3,}\b', cs)`: same matches restricted to
length at least 3. -/
def findallAlpha3 (cs : List Char) : List (List Char) :=
  (findallWordRuns cs).filter (fun r => 3 ≤ r.length)

/-- State of the bullet scanner `bulletScan`. -/
inductive BulletState where
  /-- Looking for the next bullet marker. -/
  | scan : BulletState
  /-- Just after a bullet marker, consuming the `\s*` run (`w` holds the
  whitespace read so far, in reverse order). -/
  | ws (w : List Char) : BulletState
  /-- Inside the `(.+)` capture (`cur` is the capture so far, reversed). -/
  | cap (cur : List Char) : BulletState

/-- Scanner behind `re.findall(r'[•\-\*]\s*(.+)', text)`, which the source
uses to extract bullet lines.  After a bullet marker, `\s*` greedily eats
whitespace (including newlines) and `(.+)` captures the rest of the line;
when the whitespace run reaches the end of the text, backtracking makes
`\s*` give back the last non-newline whitespace character, which becomes a
one-character capture (no match if the run is all newlines). -/
def bulletScan (st : BulletState) : List Char → List (List Char)
  | [] =>
    match st with
    | .scan => []
    | .ws w =>
      match w.find? (fun c => c ≠ '\n') with
      | some c => [[c]]
      | none => []
    | .cap cur => [cur.reverse]
  | c :: cs =>
    match st with
    | .scan =>
      if c = '•' || c = '-' || c = '*' then bulletScan (.ws []) cs
      else bulletScan .scan cs
    | .ws w =>
      if isPySpace c then bulletScan (.ws (c :: w)) cs
      else bulletScan (.cap [c]) cs
    | .cap cur =>
      if c = '\n' then cur.reverse :: bulletScan .scan cs
      else bulletScan (.cap (c :: cur)) cs

/-- All captures of `re.findall(r'[•\-\*]\s*(.+)', text)`. -/
def findBullets (text : String) : List (List Char) :=
  bulletScan .scan text.data

/-- Scanner behind `re.search(r'\b\d+[%$KMB]?\b', bullet)`.
`inRun = true` means the scan is inside a digit run whose start had a word
boundary; the run is accepted if it ends at the text edge, before a
non-word character, or before a suffix in `[KMB]` that is itself followed
by a non-word character or the edge (`%` and `$` are non-word, so they are
covered by the plain non-word case).  `prevW` records whether the previous
character was a word character. -/
def numScan (inRun : Bool) (prevW : Bool) : List Char → Bool
  | [] => inRun
  | c :: cs =>
    if inRun then
      if isAsciiDigit c then numScan true true cs
      else if !isWordChar c then true
      else if c = 'K' || c = 'M' || c = 'B' then
        match cs with
        | [] => true
        | d :: _ => if !isWordChar d then true else numScan false true cs
      else numScan false true cs
    else
      if isAsciiDigit c then
        if prevW then numScan false true cs
        else numScan true true cs
      else numScan false (isWordChar c) cs

/-- Whether `re.search(r'\b\d+[%$KMB]?\b', ...)` succeeds on the text. -/
def hasNumericToken (cs : List Char) : Bool :=
  numScan false false cs

/-- Python substring test `needle in haystack` on character lists. -/
def containsSub (needle : List Char) : List Char → Bool
  | [] => needle.isEmpty
  | c :: cs => needle.isPrefixOf (c :: cs) || containsSub needle cs

/-- Python substring test `needle in haystack` on strings. -/
def containsSubStr (needle haystack : String) : Bool :=
  containsSub needle.data haystack.data

/-- Iterating a Python `set`/`Counter` built from a list visits each
distinct element once, in first-insertion order. -/
def dedupFirstAux [DecidableEq α] (seen : List α) : List α → List α
  | [] => []
  | x :: xs =>
    if x ∈ seen then dedupFirstAux seen xs
    else x :: dedupFirstAux (x :: seen) xs

/-- The distinct elements of a list, keeping first occurrences. -/
def dedupFirst [DecidableEq α] (l : List α) : List α :=
  dedupFirstAux [] l

/-- Stable insertion of `x` after every element `y` with `le y x`. -/
def insertStable (le : α → α → Bool) (x : α) : List α → List α
  | [] => [x]
  | y :: ys => if le y x then y :: insertStable le x ys else x :: y :: ys

/-- Python `sorted` / `list.sort`: a stable sort; `le a b` means "`a` may
come before `b`" (for `sorted(key=k, reverse=True)` take
`le a b := k b ≤ k a`). -/
def pySorted (le : α → α → Bool) (l : List α) : List α :=
  l.foldl (fun acc x => insertStable le x acc) []

/-- Scanner behind Python `str.title()` on ASCII text: the first letter of
every letter run is uppercased, the others lowercased. -/
def titleChars (prevAlpha : Bool) : List Char → List Char
  | [] => []
  | c :: cs =>
    (if isAsciiAlpha c then (if prevAlpha then c.toLower else c.toUpper) else c) ::
      titleChars (isAsciiAlpha c) cs

/-- Python `str.title()` (ASCII). -/
def titleCase (s : String) : String :=
  String.mk (titleChars false s.data)

/-! ## Data model

The resume payload handled by the services is a nested dict; its
text-bearing fields are modelled as `String`s where `""` stands for a
missing or empty (falsy) value, matching the source's
`resume_data.get(key)` truthiness tests.  A `resume_data` argument is
`Option ResumeData`: `some d` is a truthy (non-empty) dict, `none` covers
both `None` and the falsy empty dict. -/

/-- One entry of `resume_data['experiences']`. -/
structure Experience where
  position : String := ""
  company : String := ""
  description : String := ""
deriving DecidableEq

/-- One entry of `resume_data['projects']`. -/
structure Project where
  title : String := ""
  description : String := ""
  technologies : String := ""
deriving DecidableEq

/-- One entry of `resume_data['skills']`. -/
structure Skill where
  name : String := ""
deriving DecidableEq

/-- One entry of `resume_data['certifications']`. -/
structure Certification where
  name : String := ""
  issuer : String := ""
deriving DecidableEq

/-- One entry of `resume_data['educations']` (`description` is only read
by `config/ai/utils.extract_text_from_resume_data`). -/
structure Education where
  degree : String := ""
  field_of_study : String := ""
  institution : String := ""
  description : String := ""
deriving DecidableEq

/-- The structured resume data consumed by both services. -/
structure ResumeData where
  full_name : String := ""
  title : String := ""
  email : String := ""
  summary : String := ""
  optimized_summary : String := ""
  experiences : List Experience := []
  projects : List Project := []
  skills : List Skill := []
  certifications : List Certification := []
  educations : List Education := []
deriving DecidableEq

/-- The third-party services `EnhancedATSAnalyzerService` can call out to,
all optional or swappable in the source:
`ratio` is the normalized similarity of the fuzzy-matching library
(rapidfuzz `fuzz.ratio(...)/100`, or difflib `SequenceMatcher.ratio()`;
`fun _ _ => 0` models the absence of both);
`llm` is the LangChain keyword extractor (`none` = LangChain or the API
key unavailable, or the call failed, so the regex fallback runs);
`textstat` is `textstat.flesch_reading_ease` (`none` = `ImportError`,
so the sentence-length heuristic runs). -/
structure Env where
  ratio : String → String → ℚ
  llm : Option (String → List String)
  textstat : Option (String → ℚ)

/-- A suggestion object `{'type': ..., 'text': ..., 'priority': ...}`. -/
structure Suggestion where
  sType : String
  text : String
  priority : String
deriving DecidableEq

/-- The `detailed_analysis` sub-dict of an analysis result. -/
structure DetailedAnalysis where
  total_words : ℕ
  total_job_keywords : ℕ
  matched_keywords_count : ℕ
  has_contact_info : Bool
  has_experience : Bool
  has_projects : Bool
  has_certifications : Bool
deriving DecidableEq

/-- The dict returned by `EnhancedATSAnalyzerService.analyze`. -/
structure AnalysisResult where
  ats_score : ℤ
  missing_keywords : List String
  suggestions : List Suggestion
  readability_score : ℤ
  bullet_strength : ℤ
  quantifiable_achievements : ℤ
  keyword_score : Option ℤ
  formatting_score : ℤ
  detailed_analysis : DetailedAnalysis
deriving DecidableEq

/-! ## `enhanced_ats_analyzer.py`: keyword extraction -/

/-- The stop-word set of `_extract_keywords_regex` (the source lists
`'its'` twice; listing it once leaves membership unchanged). -/
def analyzerStopWords : List String :=
  ["the", "and", "for", "are", "but", "not", "you", "all", "can", "her",
   "was", "one", "our", "out", "day", "get", "has", "him", "his", "how",
   "its", "may", "new", "now", "old", "see", "two", "way", "who", "boy",
   "did", "let", "put", "say", "she", "too", "use", "with", "this",
   "that", "have", "from", "they", "know", "want", "been", "good", "much",
   "some", "time", "very", "when", "come", "here", "just", "like", "long",
   "make", "many", "over", "such", "take", "than", "them", "well", "were",
   "what", "work", "year", "years", "will", "would", "could", "should",
   "ability", "abilities", "experience", "skills", "skill"]

/-- `_extract_keywords_regex`: tokenize `text.lower()` with
`\b[a-zA-Z]{3,}\b`, then build the set of tokens that are not stop words
and have length at least 3 (the length test is redundant after the regex,
as in the source). -/
def extractKeywordsRegex (text : String) : List String :=
  let words := (findallAlpha3 (lowerString text).data).map String.mk
  dedupFirst (words.filter fun w => !analyzerStopWords.contains w && 3 ≤ w.length)

/-- `_extract_job_keywords_langchain`: the LLM path keeps the string
results of length at least 3, lowercased and stripped, as a set; when the
LLM is unavailable (or its call or the JSON parse failed) the regex
fallback runs. -/
def extractJobKeywords (env : Env) (job_desc : String) : List String :=
  match env.llm with
  | some llmKeywords =>
    dedupFirst
      ((((llmKeywords job_desc).filter fun k => 3 ≤ k.length).map
        fun k => pyStrip (lowerString k)))
  | none => extractKeywordsRegex job_desc

/-- `_extract_resume_keywords_comprehensive`: union of the regex keywords
of the plain text with, when structured data is present, the keywords of
every text-bearing field (summary, optimized_summary, skills names,
projects technologies/title/description, experiences
description/position/company, certifications name/issuer, educations
degree/field_of_study/institution), in source order. -/
def extractResumeKeywordsComprehensive (resume_text : String)
    (resume_data : Option ResumeData) : List String :=
  let dataKeywords : List String :=
    match resume_data with
    | none => []
    | some d =>
      (if d.summary ≠ "" then extractKeywordsRegex d.summary else []) ++
      (if d.optimized_summary ≠ "" then extractKeywordsRegex d.optimized_summary else []) ++
      ((d.skills.map fun s =>
        if s.name ≠ "" then [pyStrip (lowerString s.name)] else []).flatten) ++
      ((d.projects.map fun p =>
        (if p.technologies ≠ "" then
          (splitOnChar ',' p.technologies.data).map
            fun t => lowerString (pyStrip (String.mk t))
         else []) ++
        (if p.title ≠ "" then extractKeywordsRegex p.title else []) ++
        (if p.description ≠ "" then extractKeywordsRegex p.description else [])).flatten) ++
      ((d.experiences.map fun e =>
        (if e.description ≠ "" then extractKeywordsRegex e.description else []) ++
        (if e.position ≠ "" then extractKeywordsRegex e.position else []) ++
        (if e.company ≠ "" then extractKeywordsRegex e.company else [])).flatten) ++
      ((d.certifications.map fun c =>
        (if c.name ≠ "" then [pyStrip (lowerString c.name)] else []) ++
        (if c.issuer ≠ "" then extractKeywordsRegex c.issuer else [])).flatten) ++
      ((d.educations.map fun e =>
        (if e.degree ≠ "" then extractKeywordsRegex e.degree else []) ++
        (if e.field_of_study ≠ "" then extractKeywordsRegex e.field_of_study else []) ++
        (if e.institution ≠ "" then extractKeywordsRegex e.institution else [])).flatten)
  dedupFirst (extractKeywordsRegex resume_text ++ dataKeywords)

/-! ## `enhanced_ats_analyzer.py`: matching and scores -/

/-- `_fuzzy_match(keyword1, keyword2, threshold=0.85)`: equal lowercase,
or normalized similarity ratio at least 0.85 (both library branches reduce
to this; with neither library present `ratio` is constantly 0 and only the
equality test remains). -/
def fuzzyMatch (ratio : String → String → ℚ) (keyword1 keyword2 : String) : Bool :=
  if lowerString keyword1 = lowerString keyword2 then true
  else decide (Rat.divInt 85 100 ≤ ratio (lowerString keyword1) (lowerString keyword2))

/-- The per-job-keyword test of `_calculate_ats_score_fuzzy` and
`_find_missing_keywords_fuzzy`: exact membership in the resume keyword
set, or a fuzzy match with some resume keyword. -/
def keywordMatched (ratio : String → String → ℚ) (resume_keywords : List String)
    (job_kw : String) : Bool :=
  resume_keywords.contains job_kw ||
    resume_keywords.any fun resume_kw => fuzzyMatch ratio job_kw resume_kw

/-- `_calculate_ats_score_fuzzy`: `(75, ∅)` when there are no job
keywords; otherwise the matched job keywords and
`int(max(0, min(100, (len(matched) / len(job_keywords)) * 100)))`
(the ratio is computed exactly: `matched·100 / total`). -/
def calcAtsScoreFuzzy (ratio : String → String → ℚ)
    (job_keywords resume_keywords : List String) : ℤ × List String :=
  if job_keywords.isEmpty then (75, [])
  else
    let matched := job_keywords.filter (keywordMatched ratio resume_keywords)
    let score : ℚ := Rat.divInt ((matched.length * 100 : ℕ) : ℤ) ((job_keywords.length : ℕ) : ℤ)
    (pyInt (pyMaxQ 0 (pyMinQ 100 score)), matched)

/-- `_find_missing_keywords_fuzzy`: the job keywords with no exact and no
fuzzy match among the resume keywords. -/
def findMissingKeywordsFuzzy (ratio : String → String → ℚ)
    (job_keywords resume_keywords : List String) : List String :=
  job_keywords.filter fun job_kw => !keywordMatched ratio resume_keywords job_kw

/-- The sort key of `analyze`'s missing-keyword ordering:
`(len(x), x.lower() not in ['the', 'and', 'for', 'with'])`. -/
def missingSortKey (x : String) : ℕ × Bool :=
  (x.length, !(List.contains ["the", "and", "for", "with"] (lowerString x)))

/-- Comparator for `sorted(..., key=missingSortKey, reverse=True)`:
`a` may precede `b` when `b`'s key is at most `a`'s key (lexicographically,
with `False < True`). -/
def missingKeyGE (a b : String) : Bool :=
  (missingSortKey b).1 < (missingSortKey a).1 ||
    ((missingSortKey b).1 == (missingSortKey a).1 &&
      (!(missingSortKey b).2 || (missingSortKey a).2))

/-- The textstat branch of `_calculate_readability_score`: the piecewise
remap of a Flesch reading-ease value into 0–100. -/
def normalizeFlesch (flesch_score : ℚ) : ℤ :=
  if 60 ≤ flesch_score then min 100 (pyInt (60 + (flesch_score - 60) * 2))
  else if 40 ≤ flesch_score then pyInt (40 + (flesch_score - 40))
  else max 0 (pyInt (flesch_score * (Rat.divInt 1 2)))

/-- The `ImportError` branch of `_calculate_readability_score`: sentences
are the `re.split(r'[.!?]+', text)` pieces; the score is a band of the
average `len(s.split())` (the `if not sentences` guard is kept although
`re.split` always returns at least one piece). -/
def readabilityFallback (text : String) : ℤ :=
  let sentences := splitOnRuns (fun c => c = '.' || c = '!' || c = '?') text.data
  if sentences.isEmpty then 50
  else
    let avg : ℚ :=
      Rat.divInt ((sentences.map fun s => (pyWords s).length).sum) sentences.length
    if 15 ≤ avg ∧ avg ≤ 20 then 85
    else if 10 ≤ avg ∧ avg ≤ 25 then 75
    else if 5 ≤ avg ∧ avg ≤ 30 then 65
    else 50

/-- `_calculate_readability_score`. -/
def calcReadabilityScore (env : Env) (text : String) : ℤ :=
  match env.textstat with
  | some flesch_reading_ease => normalizeFlesch (flesch_reading_ease text)
  | none => readabilityFallback text

/-- The bullet list shared by `_calculate_quantifiable_score` and
`_calculate_bullet_strength`: bullets of the plain text, then of every
experience description, then of every project description. -/
def collectBullets (resume_text : String) (resume_data : Option ResumeData) :
    List (List Char) :=
  findBullets resume_text ++
    (match resume_data with
     | none => []
     | some d =>
       ((d.experiences.map fun e =>
         if e.description ≠ "" then findBullets e.description else []).flatten) ++
       ((d.projects.map fun p =>
         if p.description ≠ "" then findBullets p.description else []).flatten))

/-- `_calculate_quantifiable_score`: 30 with no bullets, otherwise
`max(0, min(100, int((bullets_with_numbers / len(bullets)) * 100)))`. -/
def calcQuantifiableScore (resume_text : String)
    (resume_data : Option ResumeData) : ℤ :=
  let bullets := collectBullets resume_text resume_data
  if bullets.isEmpty then 30
  else
    let bullets_with_numbers := bullets.countP hasNumericToken
    let score := pyInt (Rat.divInt ((bullets_with_numbers * 100 : ℕ) : ℤ) ((bullets.length : ℕ) : ℤ))
    max 0 (min 100 score)

/-- The action-verb set of `_calculate_bullet_strength` (the source lists
`'designed'` twice; membership is unchanged). -/
def actionVerbs : List String :=
  ["developed", "implemented", "created", "managed", "led", "achieved",
   "increased", "improved", "designed", "built", "optimized", "reduced",
   "delivered", "executed", "launched", "established", "generated",
   "architected", "scaled", "automated", "streamlined"]

/-- `_calculate_bullet_strength`: 40 with no bullets, otherwise the
clamped integer percentage of bullets one of whose first three
whitespace-separated lowercase words is an action verb. -/
def calcBulletStrength (resume_text : String)
    (resume_data : Option ResumeData) : ℤ :=
  let bullets := collectBullets resume_text resume_data
  if bullets.isEmpty then 40
  else
    let bullets_with_verbs := bullets.countP fun b =>
      actionVerbs.any fun verb =>
        ((pyWords (b.map Char.toLower)).take 3).contains verb.data
    let score := pyInt (Rat.divInt ((bullets_with_verbs * 100 : ℕ) : ℤ) ((bullets.length : ℕ) : ℤ))
    max 0 (min 100 score)

/-- The section names `_calculate_formatting_score` looks for. -/
def sectionNames : List String :=
  ["experience", "education", "skills", "summary", "projects", "certifications"]

/-- `_calculate_formatting_score`: base 50, +8 per section name occurring
in the lowercased text, +10 each for non-empty experiences, skills and
educations, capped at 100. -/
def calcFormattingScore (resume_text : String)
    (resume_data : Option ResumeData) : ℤ :=
  let found_sections :=
    sectionNames.countP fun s => containsSubStr (lowerString s) (lowerString resume_text)
  let base : ℤ := 50 + 8 * found_sections
  let structured : ℤ :=
    match resume_data with
    | none => 0
    | some d =>
      (if !d.experiences.isEmpty then 10 else 0) +
      (if !d.skills.isEmpty then 10 else 0) +
      (if !d.educations.isEmpty then 10 else 0)
  min 100 (base + structured)

/-! ## `enhanced_ats_analyzer.py`: suggestions and `analyze` -/

/-- The certification-related keywords of `_generate_suggestions`. -/
def certKeywords : List String :=
  ["aws", "azure", "gcp", "certified", "certification"]

/-- `_generate_suggestions`: the fixed rule list, the single generic
suggestion appended when fewer than 3 rules fired, and the cut to 5. -/
def generateSuggestions (resume_text : String) (resume_data : Option ResumeData)
    (missing_keywords : List String) (ats_score quantifiable_score bullet_strength : ℤ) :
    List Suggestion :=
  let keywordSuggestion : List Suggestion :=
    if missing_keywords.isEmpty then []
    else
      let top_missing := missing_keywords.take 5
      let placement :=
        match resume_data with
        | some d =>
          if !d.experiences.isEmpty then
            "Add to relevant Experience descriptions or Skills section"
          else "Add to Skills section"
        | none => "Add to Skills section"
      [⟨"keyword",
        "Add keywords: " ++ String.intercalate ", " top_missing ++ ". " ++ placement ++ ".",
        "high"⟩]
  let achievementSuggestion : List Suggestion :=
    if quantifiable_score < 60 then
      [⟨"achievement",
        "Add quantifiable metrics to bullet points (e.g., \"Increased revenue by 25%\", \"Managed team of 10\")",
        "high"⟩]
    else []
  let bulletSuggestion : List Suggestion :=
    if bullet_strength < 70 then
      [⟨"formatting",
        "Start bullet points with strong action verbs (Developed, Implemented, Led, Achieved)",
        "medium"⟩]
    else []
  let sectionSuggestions : List Suggestion :=
    match resume_data with
    | none => []
    | some d =>
      (if d.projects.isEmpty && containsSubStr "project" (lowerString resume_text) then
        [⟨"content", "Consider adding a Projects section to showcase technical work",
          "medium"⟩]
       else []) ++
      (if d.certifications.isEmpty && !missing_keywords.isEmpty &&
          certKeywords.any (fun kw =>
            containsSubStr kw (lowerString (String.intercalate " " missing_keywords))) then
        [⟨"content",
          "Consider adding relevant certifications (e.g., AWS, Azure) if applicable",
          "low"⟩]
       else [])
  let atsSuggestion : List Suggestion :=
    if ats_score < 60 then
      [⟨"general",
        "Low ATS compatibility. Review job description keywords and ensure they appear naturally in your resume",
        "high"⟩]
    else []
  let suggestions :=
    keywordSuggestion ++ achievementSuggestion ++ bulletSuggestion ++
      sectionSuggestions ++ atsSuggestion
  let padded :=
    if suggestions.length < 3 then
      suggestions ++
        [⟨"formatting", "Ensure consistent formatting and clear section headers", "low"⟩]
    else suggestions
  padded.take 5

/-- `_extract_text_from_data`: joins every truthy text field with spaces,
in source order (educations contribute degree and institution only;
certifications contribute the name only). -/
def extractTextFromData (d : ResumeData) : String :=
  let parts : List String :=
    (if d.full_name ≠ "" then [d.full_name] else []) ++
    (if d.title ≠ "" then [d.title] else []) ++
    (if d.summary ≠ "" then [d.summary] else []) ++
    (if d.optimized_summary ≠ "" then [d.optimized_summary] else []) ++
    ((d.experiences.map fun e =>
      (if e.position ≠ "" then [e.position] else []) ++
      (if e.company ≠ "" then [e.company] else []) ++
      (if e.description ≠ "" then [e.description] else [])).flatten) ++
    ((d.projects.map fun p =>
      (if p.title ≠ "" then [p.title] else []) ++
      (if p.description ≠ "" then [p.description] else []) ++
      (if p.technologies ≠ "" then [p.technologies] else [])).flatten) ++
    ((d.educations.map fun e =>
      (if e.degree ≠ "" then [e.degree] else []) ++
      (if e.institution ≠ "" then [e.institution] else [])).flatten) ++
    ((d.skills.map fun s => if s.name ≠ "" then [s.name] else []).flatten) ++
    ((d.certifications.map fun c => if c.name ≠ "" then [c.name] else []).flatten)
  String.intercalate " " parts

/-- Truthiness of the optional `job_desc` argument (`None` and `""` are
both falsy). -/
def jobDescTruthy (job_desc : Option String) : Bool :=
  job_desc.getD "" != ""

/-- The job keywords `analyze` works with: extracted only when a truthy
job description was supplied, the empty set otherwise. -/
def jobKeywordsOf (env : Env) (job_desc : Option String) : List String :=
  if jobDescTruthy job_desc then extractJobKeywords env (job_desc.getD "") else []

/-- The body of `analyze` after the input check, on the resolved resume
text: keyword extraction, the scores, the sorted and truncated missing
keywords, the suggestions and the result dict. -/
def analyzeCore (env : Env) (resume_data : Option ResumeData)
    (resume_text : String) (job_desc : Option String) : AnalysisResult :=
  let job_keywords : List String := jobKeywordsOf env job_desc
  let resume_keywords := extractResumeKeywordsComprehensive resume_text resume_data
  let ats := calcAtsScoreFuzzy env.ratio job_keywords resume_keywords
  let missing_keywords :=
    (pySorted missingKeyGE
      (findMissingKeywordsFuzzy env.ratio job_keywords resume_keywords)).take 15
  let readability_score := calcReadabilityScore env resume_text
  let quantifiable_score := calcQuantifiableScore resume_text resume_data
  let bullet_strength := calcBulletStrength resume_text resume_data
  let keyword_score : Option ℤ :=
    if jobDescTruthy job_desc then
      let total_job := if job_keywords.isEmpty then 1 else job_keywords.length
      some (pyInt (Rat.divInt ((ats.2.length * 100 : ℕ) : ℤ) ((total_job : ℕ) : ℤ)))
    else none
  let suggestions :=
    generateSuggestions resume_text resume_data missing_keywords ats.1
      quantifiable_score bullet_strength
  { ats_score := max 0 (min 100 ats.1)
    missing_keywords := missing_keywords
    suggestions := suggestions
    readability_score := readability_score
    bullet_strength := bullet_strength
    quantifiable_achievements := quantifiable_score
    keyword_score := keyword_score
    formatting_score := calcFormattingScore resume_text resume_data
    detailed_analysis :=
      { total_words := (pyWords resume_text.data).length
        total_job_keywords := job_keywords.length
        matched_keywords_count := ats.2.length
        has_contact_info :=
          match resume_data with
          | some d => d.email != ""
          | none => false
        has_experience :=
          match resume_data with
          | some d => !d.experiences.isEmpty
          | none => false
        has_projects :=
          match resume_data with
          | some d => !d.projects.isEmpty
          | none => false
        has_certifications :=
          match resume_data with
          | some d => !d.certifications.isEmpty
          | none => false } }

/-- The resume text `analyze` works on: recomputed from truthy structured
data (discarding the `resume_text` argument), otherwise the argument
itself (`""` models a falsy argument). -/
def resolvedTextOf (resume_data : Option ResumeData)
    (resume_text : Option String) : String :=
  match resume_data with
  | some d => extractTextFromData d
  | none => resume_text.getD ""

/-- `EnhancedATSAnalyzerService.analyze`: when `resume_data` is truthy the
resume text is recomputed from it (discarding the argument); an empty
resolved text raises `ValueError`. -/
def analyze (env : Env) (resume_data : Option ResumeData)
    (resume_text : Option String) (job_desc : Option String) :
    Except String AnalysisResult :=
  if resolvedTextOf resume_data resume_text = "" then
    .error "Either resume_data or resume_text must be provided"
  else
    .ok (analyzeCore env resume_data (resolvedTextOf resume_data resume_text) job_desc)

/-- A Python value appearing in the returned dict. -/
inductive PyVal where
  | pyNone : PyVal
  | pyInt (n : ℤ) : PyVal
  | pyNat (n : ℕ) : PyVal
  | pyBool (b : Bool) : PyVal
  | pyStrList (l : List String) : PyVal
  | pySugList (l : List Suggestion) : PyVal
  | pyDict (d : List (String × PyVal)) : PyVal

/-- The dict literal `analyze` returns, as an ordered key/value list: all
nine top-level keys are always written, with `keyword_score` set to `None`
when it was not computed. -/
def resultDict (r : AnalysisResult) : List (String × PyVal) :=
  [("ats_score", .pyInt r.ats_score),
   ("missing_keywords", .pyStrList r.missing_keywords),
   ("suggestions", .pySugList r.suggestions),
   ("readability_score", .pyInt r.readability_score),
   ("bullet_strength", .pyInt r.bullet_strength),
   ("quantifiable_achievements", .pyInt r.quantifiable_achievements),
   ("keyword_score",
     match r.keyword_score with
     | some n => .pyInt n
     | none => .pyNone),
   ("formatting_score", .pyInt r.formatting_score),
   ("detailed_analysis", .pyDict
     [("total_words", .pyNat r.detailed_analysis.total_words),
      ("total_job_keywords", .pyNat r.detailed_analysis.total_job_keywords),
      ("matched_keywords_count", .pyNat r.detailed_analysis.matched_keywords_count),
      ("has_contact_info", .pyBool r.detailed_analysis.has_contact_info),
      ("has_experience", .pyBool r.detailed_analysis.has_experience),
      ("has_projects", .pyBool r.detailed_analysis.has_projects),
      ("has_certifications", .pyBool r.detailed_analysis.has_certifications)])]

/-- The nine top-level keys every analysis result must carry. -/
def requiredResultKeys : List String :=
  ["ats_score", "missing_keywords", "suggestions", "readability_score",
   "bullet_strength", "quantifiable_achievements", "keyword_score",
   "formatting_score", "detailed_analysis"]

/-- All fields `_extract_text_from_data` reads are empty (falsy): the
condition under which the recomputed resume text is `""`. -/
def textFieldsEmptyB (d : ResumeData) : Bool :=
  d.full_name == "" && d.title == "" && d.summary == "" && d.optimized_summary == "" &&
  d.experiences.all (fun e => e.position == "" && e.company == "" && e.description == "") &&
  d.projects.all (fun p => p.title == "" && p.description == "" && p.technologies == "") &&
  d.educations.all (fun e => e.degree == "" && e.institution == "") &&
  d.skills.all (fun s => s.name == "") &&
  d.certifications.all (fun c => c.name == "")

/-! ## Concrete fixtures used by the witness theorems -/

/-- An environment with no fuzzy-matching library (the similarity ratio is
constantly 0, leaving only exact matching), no LLM and no textstat. -/
def env0 : Env :=
  ⟨fun _ _ => 0, none, none⟩

/-- Fallback value used to read the payload of a successful `analyze`
call in closed statements. -/
def dummyResult : AnalysisResult :=
  ⟨0, [], [], 0, 0, 0, none, 0, ⟨0, 0, 0, false, false, false, false⟩⟩

/-- The result of analyzing a small resume text against a small job
description (regex extraction path, no structured data). -/
def sampleRun : AnalysisResult :=
  (analyze env0 none (some "Python developer with AWS and Docker experience.")
    (some "Python, AWS, Docker, Kubernetes, React")).toOption.getD dummyResult

/-- The spec's quantifiable-achievements example input, which contains no
bullet marker (`•`, `-` or `*`). -/
def quantExampleText : String :=
  "Increased revenue by 25%. Managed team of 10. Saved $50K."

/-- The analysis of `quantExampleText` alone. -/
def quantExampleRun : AnalysisResult :=
  (analyze env0 none (some quantExampleText) none).toOption.getD dummyResult

/-- A resume text that is one strong, quantified bullet: every suggestion
rule passes, so only the single padding suggestion is emitted. -/
def strongBulletText : String :=
  "- Developed system with 10 users"

/-- The analysis of `strongBulletText` alone. -/
def strongBulletRun : AnalysisResult :=
  (analyze env0 none (some strongBulletText) none).toOption.getD dummyResult

/-- Structured data whose only text is an `optimized_summary` mentioning
Heroku. -/
def herokuData : ResumeData :=
  { optimized_summary := "Deployed services on Heroku cloud" }

/-- The analysis of `herokuData` against a job description that includes
"heroku". -/
def herokuRun : AnalysisResult :=
  (analyze env0 (some herokuData) none (some "We run heroku and python daily")).toOption.getD
    dummyResult

end ATS

namespace JobMatcher

open ATS

/-! ## `config/ai/utils.py` helpers used by `JobMatcherService` -/

/-- The stop-word set of `utils.extract_keywords_from_text`. -/
def utilsStopWords : List String :=
  ["the", "a", "an", "and", "or", "but", "in", "on", "at", "to", "for",
   "of", "with", "by", "from", "as", "is", "was", "are", "were", "be",
   "been", "have", "has", "had", "do", "does", "did", "will", "would",
   "could", "should", "may", "might", "must", "can", "this", "that",
   "these", "those", "i", "you", "he", "she", "it", "we", "they"]

/-- `utils.extract_text_from_resume_data`: summary, then per experience
`f"{position} at {company}"` and the truthy description, per education
`f"{degree} in {field_of_study} from {institution}"` and the truthy
description, then the skill names joined with `", "`. -/
def extractTextFromResumeData (d : ResumeData) : String :=
  let parts : List String :=
    (if d.summary ≠ "" then [d.summary] else []) ++
    (if !d.experiences.isEmpty then
      (d.experiences.map fun e =>
        [e.position ++ " at " ++ e.company] ++
        (if e.description ≠ "" then [e.description] else [])).flatten
     else []) ++
    (if !d.educations.isEmpty then
      (d.educations.map fun e =>
        [e.degree ++ " in " ++ e.field_of_study ++ " from " ++ e.institution] ++
        (if e.description ≠ "" then [e.description] else [])).flatten
     else []) ++
    (if !d.skills.isEmpty then
      [String.intercalate ", " (d.skills.map fun s => s.name)]
     else [])
  String.intercalate " " parts

/-- `utils.extract_keywords_from_text`: tokenize `text.lower()` with
`\b[a-zA-Z]+\b`, keep words of length at least `min_length` that are not
stop words, and return `Counter(keywords).most_common(50)`: the distinct
keywords in first-occurrence order, stably sorted by frequency
descending, cut to 50. -/
def extractKeywordsFromText (text : String) (min_length : ℕ := 3) : List String :=
  let words := (findallWordRuns (lowerString text).data).map String.mk
  let keywords := words.filter fun w =>
    min_length ≤ w.length && !utilsStopWords.contains w
  (pySorted (fun a b => Nat.ble (keywords.count b) (keywords.count a))
    (dedupFirst keywords)).take 50

/-! ## `job_matcher.py`: `JobMatcherService` -/

/-- `_calculate_match_score`: weighted frequency overlap combined with
the unique-keyword overlap (0.6/0.4), capped at 1. -/
def calcMatchScore (resume_keywords job_keywords : List String) : ℚ :=
  if job_keywords.isEmpty then 0
  else
    let total_job_weight := job_keywords.length
    let matched_count :=
      ((dedupFirst job_keywords).map fun kw =>
        if resume_keywords.contains kw then
          min (resume_keywords.count kw) (job_keywords.count kw)
        else 0).sum
    let score : ℚ :=
      if 0 < total_job_weight then Rat.divInt matched_count total_job_weight else 0
    let unique_matches :=
      ((dedupFirst resume_keywords).filter fun kw => job_keywords.contains kw).length
    let unique_job_keywords := (dedupFirst job_keywords).length
    let combined : ℚ :=
      if 0 < unique_job_keywords then
        score * Rat.divInt 6 10 +
          Rat.divInt unique_matches unique_job_keywords * Rat.divInt 4 10
      else score
    pyMinQ combined 1

/-- `_find_missing_keywords`: the job-keyword set minus the resume-keyword
set, sorted by job-description frequency descending (stable; the set is
iterated in first-occurrence order), title-cased for display. -/
def findMissingKeywords (resume_keywords job_keywords : List String) : List String :=
  let missing :=
    (dedupFirst job_keywords).filter fun kw => !resume_keywords.contains kw
  (pySorted (fun a b => Nat.ble (job_keywords.count b) (job_keywords.count a))
    missing).map titleCase

/-- `_find_matched_keywords`: the intersection of the two keyword sets,
sorted by combined frequency descending, title-cased for display. -/
def findMatchedKeywords (resume_keywords job_keywords : List String) : List String :=
  let matched :=
    (dedupFirst resume_keywords).filter fun kw => job_keywords.contains kw
  (pySorted
    (fun a b =>
      Nat.ble (resume_keywords.count b + job_keywords.count b)
        (resume_keywords.count a + job_keywords.count a))
    matched).map titleCase

/-- The hardcoded `technical_skills` keyword list of
`_calculate_category_matches`. -/
def technicalSkillsKeywords : List String :=
  ["javascript", "python", "java", "react", "node", "typescript",
   "aws", "docker", "kubernetes", "sql", "mongodb", "postgresql",
   "git", "api", "microservices", "cloud", "devops"]

/-- The hardcoded `tools` keyword list. -/
def toolsKeywords : List String :=
  ["git", "jenkins", "jira", "confluence", "slack", "docker",
   "kubernetes", "terraform", "ansible", "aws", "azure", "gcp"]

/-- The hardcoded `methodologies` keyword list. -/
def methodologiesKeywords : List String :=
  ["agile", "scrum", "kanban", "devops", "ci/cd", "tdd",
   "bdd", "microservices", "api", "rest"]

/-- The hardcoded `soft_skills` keyword list. -/
def softSkillsKeywords : List String :=
  ["leadership", "communication", "teamwork", "problem-solving",
   "collaboration", "analytical", "detail-oriented", "self-motivated"]

/-- The four hardcoded keyword categories of `_calculate_category_matches`. -/
def categoryKeywordLists : List (String × List String) :=
  [("technical_skills", technicalSkillsKeywords),
   ("tools", toolsKeywords),
   ("methodologies", methodologiesKeywords),
   ("soft_skills", softSkillsKeywords)]

/-- The category match ratio as the claim states it: (number of the
category's keywords present in both the job text and the resume text)
divided by (number present in the job text), times 100 and capped at 100;
0 when none of the category's keywords appear in the job text. -/
def specCategoryScore (keywords : List String) (resume_text job_text : String) : ℚ :=
  let in_job := (keywords.filter fun kw => containsSubStr kw job_text).length
  if in_job = 0 then 0
  else
    min
      ((((keywords.filter fun kw =>
          containsSubStr kw job_text && containsSubStr kw resume_text).length : ℚ) /
        (in_job : ℚ)) * 100) 100

/-- `_calculate_category_matches` over already-lowercased texts: per
category, 0.0 when no category keyword occurs in the job text, otherwise
`min((matched / in_job) * 100, 100)` where `in_job` counts the category
keywords occurring in the job text and `matched` those occurring in both
texts (substring tests, as in the source). -/
def calcCategoryMatches (resume_text job_text : String) : List (String × ℚ) :=
  categoryKeywordLists.map fun cat =>
    (cat.1,
      let category_keywords_in_job : ℕ :=
        cat.2.countP fun kw => containsSubStr kw job_text
      if category_keywords_in_job = 0 then (0 : ℚ)
      else
        let category_keywords_matched : ℕ :=
          cat.2.countP fun kw => containsSubStr kw job_text && containsSubStr kw resume_text
        pyMinQ (Rat.divInt ((category_keywords_matched : ℕ) : ℤ)
          ((category_keywords_in_job : ℕ) : ℤ) * 100) 100)

/-- `category.replace('_', ' ').title()`. -/
def categoryDisplayName (category : String) : String :=
  titleCase (String.mk (category.data.map fun c => if c = '_' then ' ' else c))

/-- `_generate_recommendations`: the fixed rule list over the match score,
missing keywords and category scores. -/
def generateRecommendations (match_score : ℚ) (missing_keywords : List String)
    (category_matches : List (String × ℚ)) : List String :=
  (if match_score < Rat.divInt 5 10 then
    ["Low match score. Consider adding more relevant keywords from the job description."]
   else if match_score < Rat.divInt 7 10 then
    ["Moderate match score. Add a few more key skills to improve your match."]
   else []) ++
  (if missing_keywords.isEmpty then []
   else
    ["Consider adding these keywords: " ++
      String.intercalate ", " (missing_keywords.take 5)]) ++
  ((category_matches.filter fun cat => cat.2 < 50).map fun cat =>
    "Low " ++ categoryDisplayName cat.1 ++ " match. Consider adding relevant " ++
      categoryDisplayName cat.1 ++ " keywords.")

/-- The dict returned by `JobMatcherService.match`. -/
structure MatchResult where
  match_score : ℤ
  missing_keywords : List String
  matched_keywords : List String
  category_matches : List (String × ℚ)
  resume_keyword_count : ℕ
  job_keyword_count : ℕ
  keyword_overlap : ℕ
  recommendations : List String

/-- `JobMatcherService.match`: resolves the resume text (falling back to
`utils.extract_text_from_resume_data`), lowercases both texts, extracts
both keyword lists and assembles the result dict (missing and matched
lists cut to 15). -/
def runMatch (resume_data : ResumeData) (job_description : String)
    (resume_text : Option String := none) : MatchResult :=
  let text : String :=
    match resume_text with
    | some t => if t ≠ "" then t else extractTextFromResumeData resume_data
    | none => extractTextFromResumeData resume_data
  let resume_text_lower := lowerString text
  let job_text_lower := lowerString job_description
  let resume_keywords := extractKeywordsFromText resume_text_lower
  let job_keywords := extractKeywordsFromText job_text_lower
  let match_score := calcMatchScore resume_keywords job_keywords
  let missing_keywords := findMissingKeywords resume_keywords job_keywords
  let matched_keywords := findMatchedKeywords resume_keywords job_keywords
  let category_matches := calcCategoryMatches resume_text_lower job_text_lower
  { match_score := min (pyInt (match_score * 100)) 100
    missing_keywords := missing_keywords.take 15
    matched_keywords := matched_keywords.take 15
    category_matches := category_matches
    resume_keyword_count := resume_keywords.length
    job_keyword_count := job_keywords.length
    keyword_overlap := matched_keywords.length
    recommendations :=
      generateRecommendations match_score missing_keywords category_matches }

end JobMatcher


namespace ATS

theorem pyInt_eq_floor {q : ℚ} (h : 0 ≤ q) : pyInt q = ⌊q⌋ := by
  rw [Rat.floor_def]
  unfold pyInt
  obtain ⟨n, hn⟩ := Int.eq_ofNat_of_zero_le (Rat.num_nonneg.mpr h)
  rw [hn]
  rfl

theorem pyInt_nonneg {q : ℚ} (h : 0 ≤ q) : 0 ≤ pyInt q := by
  rw [pyInt_eq_floor h]
  exact Int.floor_nonneg.mpr h

theorem pyInt_le_of_le {q : ℚ} {n : ℤ} (h0 : 0 ≤ q) (h : q ≤ (n : ℚ)) :
    pyInt q ≤ n := by
  rw [pyInt_eq_floor h0]
  calc ⌊q⌋ ≤ ⌊(n : ℚ)⌋ := Int.floor_le_floor h
    _ = n := Int.floor_intCast n

theorem pyInt_nonpos {q : ℚ} (h : q ≤ 0) : pyInt q ≤ 0 := by
  have hn : q.num ≤ 0 := Rat.num_nonpos.mpr h
  unfold pyInt
  have h2 : q.num.tdiv q.den = -((-q.num).tdiv q.den) := by
    rw [Int.neg_tdiv, neg_neg]
  rw [h2]
  exact neg_nonpos_of_nonneg (Int.tdiv_nonneg (by omega) (by positivity))

theorem pyInt_mem_Icc {q : ℚ} (h0 : 0 ≤ q) (h1 : q ≤ 100) :
    0 ≤ pyInt q ∧ pyInt q ≤ 100 :=
  ⟨pyInt_nonneg h0, pyInt_le_of_le h0 (by push_cast; exact h1)⟩

theorem pyMinQ_eq_min (a b : ℚ) : pyMinQ a b = min a b := by
  rw [pyMinQ, min_def]

theorem pyMaxQ_eq_max (a b : ℚ) : pyMaxQ a b = max a b := by
  rw [pyMaxQ, max_comm, max_def]

theorem clampZ_nonneg (x : ℤ) : 0 ≤ max 0 (min 100 x) := le_max_left 0 _

theorem clampZ_le (x : ℤ) : max 0 (min 100 x) ≤ 100 :=
  max_le (by norm_num) (min_le_left _ _)

theorem normalizeFlesch_range (fs : ℚ) :
    0 ≤ normalizeFlesch fs ∧ normalizeFlesch fs ≤ 100 := by
  unfold normalizeFlesch
  split_ifs with h1 h2
  · refine ⟨le_min (by norm_num) (pyInt_nonneg (by linarith)), min_le_left _ _⟩
  · push_neg at h1
    refine ⟨pyInt_nonneg (by linarith), pyInt_le_of_le (by linarith) ?_⟩
    push_cast
    linarith
  · push_neg at h1 h2
    refine ⟨le_max_left _ _, ?_⟩
    rcases le_or_lt 0 (fs * Rat.divInt 1 2) with hq | hq
    · refine max_le (by norm_num) (pyInt_le_of_le hq ?_)
      rw [Rat.divInt_eq_div] at hq ⊢
      push_cast at hq ⊢
      linarith
    · exact max_le (by norm_num) (le_trans (pyInt_nonpos hq.le) (by norm_num))

theorem readabilityFallback_range (text : String) :
    0 ≤ readabilityFallback text ∧ readabilityFallback text ≤ 100 := by
  simp only [readabilityFallback]
  split_ifs <;> norm_num

theorem calcReadabilityScore_range (env : Env) (text : String) :
    0 ≤ calcReadabilityScore env text ∧ calcReadabilityScore env text ≤ 100 := by
  unfold calcReadabilityScore
  cases env.textstat with
  | some f => exact normalizeFlesch_range (f text)
  | none => exact readabilityFallback_range text

theorem calcQuantifiableScore_range (text : String) (rd : Option ResumeData) :
    0 ≤ calcQuantifiableScore text rd ∧ calcQuantifiableScore text rd ≤ 100 := by
  simp only [calcQuantifiableScore]
  split_ifs
  · norm_num
  · exact ⟨clampZ_nonneg _, clampZ_le _⟩

theorem calcBulletStrength_range (text : String) (rd : Option ResumeData) :
    0 ≤ calcBulletStrength text rd ∧ calcBulletStrength text rd ≤ 100 := by
  simp only [calcBulletStrength]
  split_ifs
  · norm_num
  · exact ⟨clampZ_nonneg _, clampZ_le _⟩

theorem calcFormattingScore_range (text : String) (rd : Option ResumeData) :
    0 ≤ calcFormattingScore text rd ∧ calcFormattingScore text rd ≤ 100 := by
  simp only [calcFormattingScore]
  refine ⟨le_min (by norm_num) ?_, min_le_left _ _⟩
  have h1 : (0 : ℤ) ≤ 8 * ↑(sectionNames.countP fun s =>
      containsSubStr (lowerString s) (lowerString text)) := by positivity
  cases rd with
  | none => simp; omega
  | some d =>
    dsimp only
    split_ifs <;> omega



theorem analyzeCore_ats_score (env : Env) (rd : Option ResumeData) (rt : String)
    (jd : Option String) :
    (analyzeCore env rd rt jd).ats_score =
      max 0 (min 100 (calcAtsScoreFuzzy env.ratio (jobKeywordsOf env jd)
        (extractResumeKeywordsComprehensive rt rd)).1) := rfl

theorem analyzeCore_readability (env : Env) (rd : Option ResumeData) (rt : String)
    (jd : Option String) :
    (analyzeCore env rd rt jd).readability_score = calcReadabilityScore env rt := rfl

theorem analyzeCore_bullet (env : Env) (rd : Option ResumeData) (rt : String)
    (jd : Option String) :
    (analyzeCore env rd rt jd).bullet_strength = calcBulletStrength rt rd := rfl

theorem analyzeCore_quant (env : Env) (rd : Option ResumeData) (rt : String)
    (jd : Option String) :
    (analyzeCore env rd rt jd).quantifiable_achievements = calcQuantifiableScore rt rd := rfl

theorem analyzeCore_formatting (env : Env) (rd : Option ResumeData) (rt : String)
    (jd : Option String) :
    (analyzeCore env rd rt jd).formatting_score = calcFormattingScore rt rd := rfl

theorem analyzeCore_keyword_score (env : Env) (rd : Option ResumeData) (rt : String)
    (jd : Option String) :
    (analyzeCore env rd rt jd).keyword_score =
      (if jobDescTruthy jd then
        some (pyInt (Rat.divInt
          ((((calcAtsScoreFuzzy env.ratio (jobKeywordsOf env jd)
            (extractResumeKeywordsComprehensive rt rd)).2.length * 100 : ℕ) : ℤ))
          ((((if (jobKeywordsOf env jd).isEmpty then 1
              else (jobKeywordsOf env jd).length) : ℕ) : ℤ))))
       else none) := rfl

theorem analyzeCore_missing (env : Env) (rd : Option ResumeData) (rt : String)
    (jd : Option String) :
    (analyzeCore env rd rt jd).missing_keywords =
      (pySorted missingKeyGE
        (findMissingKeywordsFuzzy env.ratio (jobKeywordsOf env jd)
          (extractResumeKeywordsComprehensive rt rd))).take 15 := rfl

theorem analyze_ok_iff {env : Env} {rd : Option ResumeData} {rt jd : Option String}
    {res : AnalysisResult} :
    analyze env rd rt jd = .ok res ↔
      (resolvedTextOf rd rt ≠ "" ∧
        res = analyzeCore env rd (resolvedTextOf rd rt) jd) := by
  unfold analyze
  split_ifs with h
  · simp [h]
  · simp [h, eq_comm]

theorem pyInt_ratio_bounds {m t : ℕ} (hm : m ≤ t) (ht : 0 < t) :
    0 ≤ pyInt (Rat.divInt (↑(m * 100)) ↑t) ∧
      pyInt (Rat.divInt (↑(m * 100)) ↑t) ≤ 100 := by
  have hq : (Rat.divInt (↑(m * 100)) ↑t) = ((m * 100 : ℕ) : ℚ) / (t : ℚ) := by
    rw [Rat.divInt_eq_div]
    push_cast
    ring
  have h0 : (0:ℚ) ≤ Rat.divInt (↑(m * 100)) ↑t := by rw [hq]; positivity
  have h1 : Rat.divInt (↑(m * 100)) ↑t ≤ 100 := by
    rw [hq, div_le_iff₀ (by positivity)]
    have hc : (m : ℚ) ≤ (t : ℚ) := by exact_mod_cast hm
    push_cast
    linarith
  exact pyInt_mem_Icc h0 h1


theorem calcAts_matched_le (ratio : String → String → ℚ) (job resume : List String) :
    (calcAtsScoreFuzzy ratio job resume).2.length ≤
      (if job.isEmpty then 1 else job.length) := by
  by_cases hj : job.isEmpty
  · simp [calcAtsScoreFuzzy, hj]
  · simp only [calcAtsScoreFuzzy, hj, Bool.false_eq_true, if_false]
    exact List.length_filter_le _ _

theorem totalJob_pos (job : List String) :
    0 < (if job.isEmpty then 1 else job.length) := by
  by_cases hj : job.isEmpty
  · simp [hj]
  · simp only [hj, Bool.false_eq_true, if_false]
    exact List.length_pos.mpr (by simpa [List.isEmpty_iff] using hj)

/-- C1: every percentage score a successful `analyze` call returns —
ats_score, readability_score, bullet_strength, quantifiable_achievements,
formatting_score, and keyword_score when computed — is an integer in
[0, 100]. -/
theorem C1_all_scores_in_range (env : Env) (rd : Option ResumeData)
    (rt jd : Option String) (res : AnalysisResult)
    (h : analyze env rd rt jd = .ok res) :
    (0 ≤ res.ats_score ∧ res.ats_score ≤ 100) ∧
    (0 ≤ res.readability_score ∧ res.readability_score ≤ 100) ∧
    (0 ≤ res.bullet_strength ∧ res.bullet_strength ≤ 100) ∧
    (0 ≤ res.quantifiable_achievements ∧ res.quantifiable_achievements ≤ 100) ∧
    (0 ≤ res.formatting_score ∧ res.formatting_score ≤ 100) ∧
    (∀ ks, res.keyword_score = some ks → 0 ≤ ks ∧ ks ≤ 100) := by
  obtain ⟨-, rfl⟩ := analyze_ok_iff.mp h
  refine ⟨?_, ?_, ?_, ?_, ?_, ?_⟩
  · rw [analyzeCore_ats_score]
    exact ⟨clampZ_nonneg _, clampZ_le _⟩
  · rw [analyzeCore_readability]
    exact calcReadabilityScore_range env _
  · rw [analyzeCore_bullet]
    exact calcBulletStrength_range _ _
  · rw [analyzeCore_quant]
    exact calcQuantifiableScore_range _ _
  · rw [analyzeCore_formatting]
    exact calcFormattingScore_range _ _
  · intro ks hks
    rw [analyzeCore_keyword_score] at hks
    by_cases hjd : jobDescTruthy jd
    · rw [if_pos hjd] at hks
      obtain rfl := (Option.some.injEq _ _).mp hks.symm
      exact pyInt_ratio_bounds (calcAts_matched_le _ _ _) (totalJob_pos _)
    · rw [if_neg hjd] at hks
      exact absurd hks (by simp)

theorem C1_witness :
    (0 ≤ sampleRun.ats_score ∧ sampleRun.ats_score ≤ 100) ∧
    (0 ≤ sampleRun.readability_score ∧ sampleRun.readability_score ≤ 100) ∧
    (0 ≤ sampleRun.bullet_strength ∧ sampleRun.bullet_strength ≤ 100) ∧
    (0 ≤ sampleRun.quantifiable_achievements ∧ sampleRun.quantifiable_achievements ≤ 100) ∧
    (0 ≤ sampleRun.formatting_score ∧ sampleRun.formatting_score ≤ 100) ∧
    (∀ ks, sampleRun.keyword_score = some ks → 0 ≤ ks ∧ ks ≤ 100) :=
  C1_all_scores_in_range env0 none
    (some "Python developer with AWS and Docker experience.")
    (some "Python, AWS, Docker, Kubernetes, React") sampleRun (by rfl)

/-- C3 (code-bug evidence): on a resume consisting of one strong,
quantified bullet, with no structured data and no job description, every
suggestion rule passes and `analyze` returns a single (padding)
suggestion — fewer than the three the spec and the source's own
"Ensure we have at least 3 suggestions" comment promise. -/
theorem C3_single_suggestion_eval :
    analyze env0 none (some strongBulletText) none = .ok strongBulletRun ∧
    strongBulletRun.suggestions.length = 1 ∧
    ¬ 3 ≤ strongBulletRun.suggestions.length :=
  ⟨by rfl, by decide, by decide⟩

theorem pyInt_natCast_div (a b : ℕ) :
    pyInt (Rat.divInt (↑a) (↑b)) = ((a / b : ℕ) : ℤ) := by
  rcases Nat.eq_zero_or_pos b with hb | hb
  · subst hb
    simp [pyInt, Rat.divInt]
  · have hq : Rat.divInt (↑a) (↑b) = ((a : ℚ) / ((b : ℕ) : ℚ)) := by
      rw [Rat.divInt_eq_div]
      push_cast
      ring
    have h3 : (0:ℚ) ≤ (a : ℚ) / ((b : ℕ) : ℚ) := by positivity
    have h4 : ⌊(a : ℚ) / ((b : ℕ) : ℚ)⌋ = (⌊(a : ℚ) / ((b : ℕ) : ℚ)⌋₊ : ℤ) := by
      rw [← Int.floor_toNat, Int.toNat_of_nonneg (Int.floor_nonneg.mpr h3)]
    rw [hq, pyInt_eq_floor h3, h4, Nat.floor_div_eq_div]

/-- C7 counterexample: the spec example text contains no bullet marker,
so the quantifiable-achievements score is the no-bullet default 30, not
at least 60. -/
theorem C7_counterexample :
    analyze env0 none (some quantExampleText) none = .ok quantExampleRun ∧
    quantExampleRun.quantifiable_achievements = 30 ∧
    ¬ 60 ≤ quantExampleRun.quantifiable_achievements :=
  ⟨by rfl, by decide, by decide⟩

/-- C7 (amended): the quantifiable score is 30 when no bullet lines are
extracted, and otherwise exactly the integer percentage of bullet lines
containing a numeric token (the clamp in the source never changes it). -/
theorem C7_quantifiable_formula (text : String) (rd : Option ResumeData) :
    (collectBullets text rd = [] → calcQuantifiableScore text rd = 30) ∧
    (collectBullets text rd ≠ [] →
      calcQuantifiableScore text rd =
        ((((collectBullets text rd).countP hasNumericToken * 100) /
          (collectBullets text rd).length : ℕ) : ℤ)) := by
  constructor
  · intro h
    simp [calcQuantifiableScore, h]
  · intro h
    have hne : (collectBullets text rd).isEmpty = false := by
      simpa [List.isEmpty_iff] using h
    simp only [calcQuantifiableScore, hne, Bool.false_eq_true, if_false]
    rw [pyInt_natCast_div]
    have hmle : (collectBullets text rd).countP hasNumericToken ≤
        (collectBullets text rd).length := List.countP_le_length _
    have hlpos : 0 < (collectBullets text rd).length :=
      List.length_pos.mpr h
    have hdivle : ((collectBullets text rd).countP hasNumericToken * 100) /
        (collectBullets text rd).length ≤ 100 := by
      calc _ ≤ ((collectBullets text rd).length * 100) /
            (collectBullets text rd).length :=
          Nat.div_le_div_right (by omega)
        _ = 100 := Nat.mul_div_cancel_left 100 hlpos
    have hx : (0:ℤ) ≤ ((((collectBullets text rd).countP hasNumericToken * 100) /
        (collectBullets text rd).length : ℕ) : ℤ) := by positivity
    have hy : ((((collectBullets text rd).countP hasNumericToken * 100) /
        (collectBullets text rd).length : ℕ) : ℤ) ≤ 100 := by exact_mod_cast hdivle
    omega

theorem C7_formula_witness :
    collectBullets "- Grew sales 20% fast" none ≠ [] ∧
    calcQuantifiableScore "- Grew sales 20% fast" none =
      ((((collectBullets "- Grew sales 20% fast" none).countP hasNumericToken * 100) /
        (collectBullets "- Grew sales 20% fast" none).length : ℕ) : ℤ) :=
  ⟨by decide, (C7_quantifiable_formula "- Grew sales 20% fast" none).2 (by decide)⟩


/-- C9: every successful `analyze` result carries all nine top-level keys,
and `keyword_score` is present (as `None`) when no job description was
supplied. -/
theorem C9_all_keys_present (env : Env) (rd : Option ResumeData)
    (rt jd : Option String) (res : AnalysisResult)
    (h : analyze env rd rt jd = .ok res) :
    (∀ k ∈ requiredResultKeys, ((resultDict res).lookup k).isSome = true) ∧
    (jobDescTruthy jd = false →
      (resultDict res).lookup "keyword_score" = some PyVal.pyNone) := by
  obtain ⟨-, rfl⟩ := analyze_ok_iff.mp h
  constructor
  · intro k hk
    simp only [requiredResultKeys, List.mem_cons, List.not_mem_nil, or_false] at hk
    rcases hk with rfl | rfl | rfl | rfl | rfl | rfl | rfl | rfl | rfl <;>
      simp [resultDict, List.lookup]
  · intro hjd
    have hks : (analyzeCore env rd (resolvedTextOf rd rt) jd).keyword_score = none := by
      rw [analyzeCore_keyword_score, if_neg (by simp [hjd])]
    simp [resultDict, List.lookup, hks]

theorem C9_witness :
    (∀ k ∈ requiredResultKeys, ((resultDict strongBulletRun).lookup k).isSome = true) ∧
    (jobDescTruthy none = false →
      (resultDict strongBulletRun).lookup "keyword_score" = some PyVal.pyNone) :=
  C9_all_keys_present env0 none (some strongBulletText) none strongBulletRun (by rfl)

theorem extractTextFromData_empty {d : ResumeData} (h : textFieldsEmptyB d = true) :
    extractTextFromData d = "" := by
  simp only [textFieldsEmptyB, Bool.and_eq_true, beq_iff_eq, List.all_eq_true] at h
  obtain ⟨⟨⟨⟨⟨⟨⟨⟨hfn, hti⟩, hsu⟩, hos⟩, hex⟩, hpr⟩, hed⟩, hsk⟩, hce⟩ := h
  have hexn : (d.experiences.map fun e =>
      (if e.position ≠ "" then [e.position] else []) ++
      (if e.company ≠ "" then [e.company] else []) ++
      (if e.description ≠ "" then [e.description] else [])).flatten = [] := by
    rw [List.flatten_eq_nil_iff]
    intro l hl
    obtain ⟨e, he, rfl⟩ := List.mem_map.mp hl
    obtain ⟨⟨h1, h2⟩, h3⟩ := by simpa [Bool.and_eq_true, beq_iff_eq] using hex e he
    simp [h1, h2, h3]
  have hprn : (d.projects.map fun p =>
      (if p.title ≠ "" then [p.title] else []) ++
      (if p.description ≠ "" then [p.description] else []) ++
      (if p.technologies ≠ "" then [p.technologies] else [])).flatten = [] := by
    rw [List.flatten_eq_nil_iff]
    intro l hl
    obtain ⟨p, hp, rfl⟩ := List.mem_map.mp hl
    obtain ⟨⟨h1, h2⟩, h3⟩ := by simpa [Bool.and_eq_true, beq_iff_eq] using hpr p hp
    simp [h1, h2, h3]
  have hedn : (d.educations.map fun e =>
      (if e.degree ≠ "" then [e.degree] else []) ++
      (if e.institution ≠ "" then [e.institution] else [])).flatten = [] := by
    rw [List.flatten_eq_nil_iff]
    intro l hl
    obtain ⟨e, he, rfl⟩ := List.mem_map.mp hl
    obtain ⟨h1, h2⟩ := by simpa [Bool.and_eq_true, beq_iff_eq] using hed e he
    simp [h1, h2]
  have hskn : (d.skills.map fun s => if s.name ≠ "" then [s.name] else []).flatten = [] := by
    rw [List.flatten_eq_nil_iff]
    intro l hl
    obtain ⟨sk, hs, rfl⟩ := List.mem_map.mp hl
    have h1 := by simpa [beq_iff_eq] using hsk sk hs
    simp [h1]
  have hcen : (d.certifications.map fun c => if c.name ≠ "" then [c.name] else []).flatten = [] := by
    rw [List.flatten_eq_nil_iff]
    intro l hl
    obtain ⟨c, hc, rfl⟩ := List.mem_map.mp hl
    have h1 := by simpa [beq_iff_eq] using hce c hc
    simp [h1]
  unfold extractTextFromData
  rw [hexn, hprn, hedn, hskn, hcen]
  simp [hfn, hti, hsu, hos]
  rfl

/-- C10: with truthy structured data, `analyze` ignores the caller-supplied
resume text entirely; and when every text-bearing field of that data is
empty it raises `ValueError` even if a non-empty `resume_text` was
passed. -/
theorem C10_resume_data_overrides_text (env : Env) (d : ResumeData)
    (rt rtOther jd : Option String) :
    analyze env (some d) rt jd = analyze env (some d) rtOther jd ∧
    (textFieldsEmptyB d = true →
      analyze env (some d) rt jd =
        .error "Either resume_data or resume_text must be provided") := by
  constructor
  · rfl
  · intro he
    have h0 : extractTextFromData d = "" := extractTextFromData_empty he
    unfold analyze resolvedTextOf
    simp [h0]

theorem C10_witness :
    analyze env0 (some { experiences := [{}] }) (some "A perfectly good resume text") none =
      analyze env0 (some { experiences := [{}] }) (some "another text") none ∧
    (textFieldsEmptyB { experiences := [{}] } = true →
      analyze env0 (some { experiences := [{}] }) (some "A perfectly good resume text") none =
        .error "Either resume_data or resume_text must be provided") :=
  C10_resume_data_overrides_text env0 { experiences := [{}] }
    (some "A perfectly good resume text") (some "another text") none


theorem pyMaxQ_zero_of_nonneg {q : ℚ} (h : 0 ≤ q) : pyMaxQ 0 q = q := by
  unfold pyMaxQ
  split_ifs with h2
  · linarith
  · rfl

theorem calcAts_empty (ratio : String → String → ℚ) (R : List String) :
    calcAtsScoreFuzzy ratio [] R = (75, []) := rfl

theorem calcAts_score_eq (ratio : String → String → ℚ)
    {job_keywords : List String} (h : job_keywords ≠ []) (resume_keywords : List String) :
    (calcAtsScoreFuzzy ratio job_keywords resume_keywords).1 =
      max 0 (min 100
        ((((job_keywords.filter (keywordMatched ratio resume_keywords)).length * 100) /
          job_keywords.length : ℕ) : ℤ)) := by
  have hne : job_keywords.isEmpty = false := by simpa [List.isEmpty_iff] using h
  have htpos : 0 < job_keywords.length := List.length_pos.mpr h
  simp only [calcAtsScoreFuzzy, hne, Bool.false_eq_true, if_false]
  set m := (job_keywords.filter (keywordMatched ratio resume_keywords)).length with hm
  set t := job_keywords.length with ht
  have hq : Rat.divInt ((m * 100 : ℕ) : ℤ) ((t : ℕ) : ℤ) =
      ((m * 100 : ℕ) : ℚ) / ((t : ℕ) : ℚ) := by
    rw [Rat.divInt_eq_div]
    push_cast
    ring
  have hq0 : (0:ℚ) ≤ Rat.divInt ((m * 100 : ℕ) : ℤ) ((t : ℕ) : ℤ) := by
    rw [hq]; positivity
  rcases le_or_lt (100:ℚ) (Rat.divInt ((m * 100 : ℕ) : ℤ) ((t : ℕ) : ℤ)) with hc | hc
  · have hcn : 100 * t ≤ m * 100 := by
      rw [hq, le_div_iff₀ (by exact_mod_cast htpos)] at hc
      exact_mod_cast hc
    have hdn : 100 ≤ m * 100 / t := (Nat.le_div_iff_mul_le htpos).mpr (by omega)
    have h1 : pyMinQ 100 (Rat.divInt ((m * 100 : ℕ) : ℤ) ((t : ℕ) : ℤ)) = 100 := by
      unfold pyMinQ
      rw [if_pos hc]
    rw [h1, pyMaxQ_zero_of_nonneg (by norm_num)]
    have h2 : pyInt 100 = 100 := by decide
    rw [h2, min_eq_left (by exact_mod_cast hdn), max_eq_right (by norm_num)]
  · have hcn : m * 100 < 100 * t := by
      rw [hq, div_lt_iff₀ (by exact_mod_cast htpos)] at hc
      exact_mod_cast hc
    have hdn : m * 100 / t < 100 := Nat.div_lt_of_lt_mul (by omega)
    have h1 : pyMinQ 100 (Rat.divInt ((m * 100 : ℕ) : ℤ) ((t : ℕ) : ℤ)) =
        Rat.divInt ((m * 100 : ℕ) : ℤ) ((t : ℕ) : ℤ) := by
      unfold pyMinQ
      rw [if_neg (by linarith)]
    rw [h1, pyMaxQ_zero_of_nonneg hq0, pyInt_natCast_div,
      min_eq_right (by exact_mod_cast hdn.le), max_eq_right (by positivity)]

/-- C2: with job keywords present, the ATS score is the matched-keyword
ratio times 100, truncated to an integer and clamped to [0, 100] (a job
keyword is matched when it is in the resume keyword set exactly or by a
fuzzy match); with no job keywords the result is the fixed baseline
`(75, ∅)` rather than an error. -/
theorem C2_ats_score_formula (ratio : String → String → ℚ)
    (job_keywords resume_keywords : List String) :
    (job_keywords = [] →
      calcAtsScoreFuzzy ratio job_keywords resume_keywords = (75, [])) ∧
    (job_keywords ≠ [] →
      (calcAtsScoreFuzzy ratio job_keywords resume_keywords).1 =
        max 0 (min 100
          ((((job_keywords.filter (keywordMatched ratio resume_keywords)).length * 100) /
            job_keywords.length : ℕ) : ℤ))) := by
  constructor
  · intro h
    subst h
    exact calcAts_empty ratio resume_keywords
  · intro h
    exact calcAts_score_eq ratio h resume_keywords

theorem C2_witness :
    calcAtsScoreFuzzy env0.ratio [] ["python"] = (75, []) ∧
    (calcAtsScoreFuzzy env0.ratio ["docker", "aws"] ["docker"]).1 =
      max 0 (min 100
        ((((["docker", "aws"].filter (keywordMatched env0.ratio ["docker"])).length * 100) /
          (["docker", "aws"] : List String).length : ℕ) : ℤ)) :=
  ⟨(C2_ats_score_formula env0.ratio [] ["python"]).1 rfl,
   (C2_ats_score_formula env0.ratio ["docker", "aws"] ["docker"]).2 (by decide)⟩


end ATS

namespace JobMatcher

open ATS

theorem categoryScore_spec (kws : List String) (rt jt : String) :
    (if (kws.countP fun kw => containsSubStr kw jt) = 0 then (0:ℚ)
     else
       pyMinQ
         (Rat.divInt
           ((kws.countP fun kw => containsSubStr kw jt && containsSubStr kw rt) : ℕ)
           (((kws.countP fun kw => containsSubStr kw jt) : ℕ)) * 100) 100) =
      specCategoryScore kws rt jt := by
  unfold specCategoryScore
  simp only [List.countP_eq_length_filter]
  split_ifs with h
  · rfl
  · rw [pyMinQ_eq_min, Rat.divInt_eq_div]
    push_cast
    ring_nf

/-- C8: for every pair of (lowercased) resume and job texts, each of the
four category scores equals the count of that category's keywords occurring
as substrings of both texts, divided by the count occurring in the job
text, times 100 capped at 100 — and 0 when the category has no presence in
the job text. -/
theorem C8_category_match_formula (resume_text job_text : String) :
    (calcCategoryMatches resume_text job_text).lookup "technical_skills" =
      some (specCategoryScore technicalSkillsKeywords resume_text job_text) ∧
    (calcCategoryMatches resume_text job_text).lookup "tools" =
      some (specCategoryScore toolsKeywords resume_text job_text) ∧
    (calcCategoryMatches resume_text job_text).lookup "methodologies" =
      some (specCategoryScore methodologiesKeywords resume_text job_text) ∧
    (calcCategoryMatches resume_text job_text).lookup "soft_skills" =
      some (specCategoryScore softSkillsKeywords resume_text job_text) := by
  refine ⟨?_, ?_, ?_, ?_⟩
  · rw [show (calcCategoryMatches resume_text job_text).lookup "technical_skills" =
        some (if (technicalSkillsKeywords.countP fun kw => containsSubStr kw job_text) = 0
          then (0:ℚ)
          else pyMinQ (Rat.divInt
            ((technicalSkillsKeywords.countP fun kw =>
              containsSubStr kw job_text && containsSubStr kw resume_text : ℕ) : ℤ)
            ((technicalSkillsKeywords.countP fun kw => containsSubStr kw job_text : ℕ) : ℤ) *
            100) 100) by
      simp only [calcCategoryMatches, categoryKeywordLists, List.map_cons, List.map_nil]
      rfl]
    rw [categoryScore_spec]
  · rw [show (calcCategoryMatches resume_text job_text).lookup "tools" =
        some (if (toolsKeywords.countP fun kw => containsSubStr kw job_text) = 0
          then (0:ℚ)
          else pyMinQ (Rat.divInt
            ((toolsKeywords.countP fun kw =>
              containsSubStr kw job_text && containsSubStr kw resume_text : ℕ) : ℤ)
            ((toolsKeywords.countP fun kw => containsSubStr kw job_text : ℕ) : ℤ) *
            100) 100) by
      simp only [calcCategoryMatches, categoryKeywordLists, List.map_cons, List.map_nil]
      rfl]
    rw [categoryScore_spec]
  · rw [show (calcCategoryMatches resume_text job_text).lookup "methodologies" =
        some (if (methodologiesKeywords.countP fun kw => containsSubStr kw job_text) = 0
          then (0:ℚ)
          else pyMinQ (Rat.divInt
            ((methodologiesKeywords.countP fun kw =>
              containsSubStr kw job_text && containsSubStr kw resume_text : ℕ) : ℤ)
            ((methodologiesKeywords.countP fun kw => containsSubStr kw job_text : ℕ) : ℤ) *
            100) 100) by
      simp only [calcCategoryMatches, categoryKeywordLists, List.map_cons, List.map_nil]
      rfl]
    rw [categoryScore_spec]
  · rw [show (calcCategoryMatches resume_text job_text).lookup "soft_skills" =
        some (if (softSkillsKeywords.countP fun kw => containsSubStr kw job_text) = 0
          then (0:ℚ)
          else pyMinQ (Rat.divInt
            ((softSkillsKeywords.countP fun kw =>
              containsSubStr kw job_text && containsSubStr kw resume_text : ℕ) : ℤ)
            ((softSkillsKeywords.countP fun kw => containsSubStr kw job_text : ℕ) : ℤ) *
            100) 100) by
      simp only [calcCategoryMatches, categoryKeywordLists, List.map_cons, List.map_nil]
      rfl]
    rw [categoryScore_spec]

end JobMatcher

namespace ATS



theorem mem_dedupFirstAux [DecidableEq α] {seen l : List α} {x : α} :
    x ∈ dedupFirstAux seen l ↔ x ∈ l ∧ x ∉ seen := by
  induction l generalizing seen with
  | nil => simp [dedupFirstAux]
  | cons y ys ih =>
    simp only [dedupFirstAux]
    split_ifs with hy
    · rw [ih, List.mem_cons]
      constructor
      · exact fun ⟨h1, h2⟩ => ⟨Or.inr h1, h2⟩
      · rintro ⟨rfl | h1, h2⟩
        · exact absurd hy h2
        · exact ⟨h1, h2⟩
    · simp only [List.mem_cons, ih, List.mem_cons]
      constructor
      · rintro (rfl | ⟨h1, h2⟩)
        · exact ⟨Or.inl rfl, hy⟩
        · exact ⟨Or.inr h1, fun hx => h2 (Or.inr hx)⟩
      · rintro ⟨rfl | h1, h2⟩
        · exact Or.inl rfl
        · by_cases hxy : x = y
          · exact Or.inl hxy
          · exact Or.inr ⟨h1, fun hor => by
              rcases hor with h | h
              · exact hxy h
              · exact h2 h⟩

theorem mem_dedupFirst [DecidableEq α] {l : List α} {x : α} :
    x ∈ dedupFirst l ↔ x ∈ l := by
  unfold dedupFirst
  rw [mem_dedupFirstAux]
  simp

theorem mem_insertStable {le : α → α → Bool} {x y : α} {l : List α} :
    y ∈ insertStable le x l ↔ y = x ∨ y ∈ l := by
  induction l with
  | nil => simp [insertStable]
  | cons z zs ih =>
    simp only [insertStable]
    split_ifs
    · simp only [List.mem_cons, ih]
      tauto
    · simp only [List.mem_cons]

theorem length_insertStable (le : α → α → Bool) (x : α) (l : List α) :
    (insertStable le x l).length = l.length + 1 := by
  induction l with
  | nil => rfl
  | cons z zs ih =>
    simp only [insertStable]
    split_ifs <;> simp [ih]

theorem mem_pySorted_foldl {le : α → α → Bool} {l acc : List α} {x : α} :
    x ∈ l.foldl (fun acc x => insertStable le x acc) acc ↔ x ∈ acc ∨ x ∈ l := by
  induction l generalizing acc with
  | nil => simp
  | cons y ys ih =>
    simp only [List.foldl_cons, ih, mem_insertStable, List.mem_cons]
    tauto

theorem mem_pySorted {le : α → α → Bool} {l : List α} {x : α} :
    x ∈ pySorted le l ↔ x ∈ l := by
  unfold pySorted
  rw [mem_pySorted_foldl]
  simp

theorem length_pySorted_foldl {le : α → α → Bool} {l acc : List α} :
    (l.foldl (fun acc x => insertStable le x acc) acc).length =
      acc.length + l.length := by
  induction l generalizing acc with
  | nil => simp
  | cons y ys ih =>
    simp only [List.foldl_cons, ih, length_insertStable, List.length_cons]
    omega

theorem length_pySorted (le : α → α → Bool) (l : List α) :
    (pySorted le l).length = l.length := by
  unfold pySorted
  rw [length_pySorted_foldl]
  simp


theorem char_toNat_ofNat {n : ℕ} (h : n < 55296) : (Char.ofNat n).toNat = n := by
  have hv : n.isValidChar := Or.inl h
  rw [Char.ofNat, dif_pos hv]
  show (UInt32.ofNat' n _).toBitVec.toNat = n
  simp [UInt32.ofNat']

theorem toNat_toLower (c : Char) :
    (Char.toLower c).toNat =
      if 65 ≤ c.toNat ∧ c.toNat ≤ 90 then c.toNat + 32 else c.toNat := by
  simp only [Char.toLower]
  split_ifs with h1
  · exact @char_toNat_ofNat (c.toNat + 32) (by omega)
  · rfl

theorem toNat_toUpper (c : Char) :
    (Char.toUpper c).toNat =
      if 97 ≤ c.toNat ∧ c.toNat ≤ 122 then c.toNat - 32 else c.toNat := by
  simp only [Char.toUpper]
  split_ifs with h1
  · exact @char_toNat_ofNat (c.toNat - 32) (by omega)
  · rfl

/-- A letter produced by `Char.toLower` is lowercase. -/
theorem toLower_mem_lower {d : Char} (h : isAsciiAlpha (Char.toLower d) = true) :
    97 ≤ (Char.toLower d).toNat ∧ (Char.toLower d).toNat ≤ 122 := by
  have ht := toNat_toLower d
  simp only [isAsciiAlpha, Bool.or_eq_true, Bool.and_eq_true, decide_eq_true_eq] at h
  split_ifs at ht <;> omega

theorem toLower_eq_self_of_lower {c : Char} (h97 : 97 ≤ c.toNat) :
    Char.toLower c = c := by
  simp only [Char.toLower]
  rw [if_neg (by omega)]

theorem toUpper_inj_lower {c1 c2 : Char}
    (h1 : 97 ≤ c1.toNat ∧ c1.toNat ≤ 122) (h2 : 97 ≤ c2.toNat ∧ c2.toNat ≤ 122)
    (he : Char.toUpper c1 = Char.toUpper c2) : c1 = c2 := by
  have e1 := toNat_toUpper c1
  have e2 := toNat_toUpper c2
  rw [he, e2, if_pos h2] at e1
  rw [if_pos h1] at e1
  have hnat : c1.toNat = c2.toNat := by omega
  calc c1 = Char.ofNat c1.toNat := (Char.ofNat_toNat c1).symm
    _ = Char.ofNat c2.toNat := by rw [hnat]
    _ = c2 := Char.ofNat_toNat c2


theorem tokenScan_chars {l cur : List Char} {okL pnw : Bool}
    (hcur : ∀ c ∈ cur, isAsciiAlpha c = true) {t : List Char}
    (ht : t ∈ tokenScan cur okL pnw l) {c : Char} (hc : c ∈ t) :
    (c ∈ cur ∨ c ∈ l) ∧ isAsciiAlpha c = true := by
  induction l generalizing cur okL pnw with
  | nil =>
    simp only [tokenScan] at ht
    split_ifs at ht with h
    · obtain rfl := List.mem_singleton.mp ht
      have hcc : c ∈ cur := List.mem_reverse.mp hc
      exact ⟨Or.inl hcc, hcur c hcc⟩
    · exact absurd ht (List.not_mem_nil _)
  | cons a as ih =>
    simp only [tokenScan] at ht
    by_cases ha : isAsciiAlpha a
    · rw [if_pos ha] at ht
      by_cases he : cur.isEmpty
      · rw [if_pos he] at ht
        have := @ih [a] pnw false
          (by intro x hx; obtain rfl := List.mem_singleton.mp hx; exact ha) ht
        rcases this with ⟨h1 | h1, h2⟩
        · obtain rfl := List.mem_singleton.mp h1
          exact ⟨Or.inr (List.mem_cons_self _ _), h2⟩
        · exact ⟨Or.inr (List.mem_cons_of_mem _ h1), h2⟩
      · rw [if_neg he] at ht
        have := @ih (a :: cur) okL false
          (by
            intro x hx
            rcases List.mem_cons.mp hx with rfl | hx2
            · exact ha
            · exact hcur x hx2) ht
        rcases this with ⟨h1 | h1, h2⟩
        · rcases List.mem_cons.mp h1 with rfl | hx2
          · exact ⟨Or.inr (List.mem_cons_self _ _), h2⟩
          · exact ⟨Or.inl hx2, h2⟩
        · exact ⟨Or.inr (List.mem_cons_of_mem _ h1), h2⟩
    · rw [if_neg ha] at ht
      rcases List.mem_append.mp ht with h | h
      · split_ifs at h with hemit
        · obtain rfl := List.mem_singleton.mp h
          have hcc : c ∈ cur := List.mem_reverse.mp hc
          exact ⟨Or.inl hcc, hcur c hcc⟩
        · exact absurd h (List.not_mem_nil _)
      · have := @ih [] false (!isWordChar a) (by simp) h
        rcases this with ⟨h1 | h1, h2⟩
        · exact absurd h1 (List.not_mem_nil _)
        · exact ⟨Or.inr (List.mem_cons_of_mem _ h1), h2⟩

theorem tokenScan_ne_nil {l cur : List Char} {okL pnw : Bool} {t : List Char}
    (ht : t ∈ tokenScan cur okL pnw l) : t ≠ [] := by
  induction l generalizing cur okL pnw with
  | nil =>
    simp only [tokenScan] at ht
    split_ifs at ht with h
    · obtain rfl := List.mem_singleton.mp ht
      simp only [Bool.and_eq_true, Bool.not_eq_true'] at h
      simpa [List.isEmpty_iff] using h.1
    · exact absurd ht (List.not_mem_nil _)
  | cons a as ih =>
    simp only [tokenScan] at ht
    by_cases ha : isAsciiAlpha a
    · rw [if_pos ha] at ht
      by_cases he : cur.isEmpty
      · rw [if_pos he] at ht
        exact ih ht
      · rw [if_neg he] at ht
        exact ih ht
    · rw [if_neg ha] at ht
      rcases List.mem_append.mp ht with h | h
      · split_ifs at h with hemit
        · obtain rfl := List.mem_singleton.mp h
          simp only [Bool.and_eq_true, Bool.not_eq_true'] at hemit
          simpa [List.isEmpty_iff] using hemit.1.1
        · exact absurd h (List.not_mem_nil _)
      · exact ih h

theorem tokenScan_append_space (l1 l2 : List Char) (cur : List Char) (okL pnw : Bool) :
    tokenScan cur okL pnw (l1 ++ ' ' :: l2) =
      tokenScan cur okL pnw l1 ++ tokenScan [] false true l2 := by
  induction l1 generalizing cur okL pnw with
  | nil =>
    simp only [List.nil_append, tokenScan]
    rw [if_neg (by decide : ¬ isAsciiAlpha ' ' = true)]
    have hw : isWordChar ' ' = false := by decide
    rw [hw]
    simp
  | cons a as ih =>
    simp only [List.cons_append, tokenScan, List.append_eq]
    by_cases ha : isAsciiAlpha a
    · rw [if_pos ha, if_pos ha]
      by_cases he : cur.isEmpty
      · rw [if_pos he, if_pos he, ih]
      · rw [if_neg he, if_neg he, ih]
    · rw [if_neg ha, if_neg ha, ih, List.append_assoc]

theorem tokenScan_all_alpha {l : List Char} (h : ∀ c ∈ l, isAsciiAlpha c = true)
    {cur : List Char} (hcur : ¬cur.isEmpty = true) (pnw : Bool) :
    tokenScan cur true pnw l = [cur.reverse ++ l] := by
  induction l generalizing cur pnw with
  | nil => simp [tokenScan, hcur]
  | cons a as ih =>
    simp only [tokenScan]
    rw [if_pos (h a (List.mem_cons_self _ _)), if_neg hcur]
    rw [ih (fun c hc => h c (List.mem_cons_of_mem _ hc)) (by simp)]
    simp

theorem findallWordRuns_alpha_run {k : List Char} (hne : k ≠ [])
    (h : ∀ c ∈ k, isAsciiAlpha c = true) :
    tokenScan [] false true k = [k] := by
  cases k with
  | nil => exact absurd rfl hne
  | cons a as =>
    simp only [tokenScan]
    rw [if_pos (h a (List.mem_cons_self _ _)),
      if_pos (show ([] : List Char).isEmpty = true from rfl)]
    rw [tokenScan_all_alpha (fun c hc => h c (List.mem_cons_of_mem _ hc)) (by simp) false]
    simp


theorem string_mk_data (s : String) : String.mk s.data = s := rfl

theorem extractKeywordsRegex_mem_chars {text w : String}
    (hw : w ∈ extractKeywordsRegex text) :
    w.data ≠ [] ∧ 3 ≤ w.length ∧ analyzerStopWords.contains w = false ∧
      ∀ c ∈ w.data, 97 ≤ c.toNat ∧ c.toNat ≤ 122 := by
  unfold extractKeywordsRegex at hw
  rw [mem_dedupFirst] at hw
  obtain ⟨hw1, hcond⟩ := List.mem_filter.mp hw
  obtain ⟨tok, htok, rfl⟩ := List.mem_map.mp hw1
  unfold findallAlpha3 at htok
  obtain ⟨htok2, hlen⟩ := List.mem_filter.mp htok
  simp only [decide_eq_true_eq] at hlen
  simp only [Bool.and_eq_true, Bool.not_eq_true', decide_eq_true_eq] at hcond
  refine ⟨?_, hcond.2, hcond.1, ?_⟩
  · show tok ≠ []
    intro h
    subst h
    simp at hlen
  · intro c hc
    have hres := @tokenScan_chars (lowerString text).data [] false true
      (by simp) _ htok2 _ hc
    rcases hres with ⟨h1 | h1, h2⟩
    · exact absurd h1 (List.not_mem_nil _)
    · have hmap : (lowerString text).data = text.data.map Char.toLower := rfl
      rw [hmap] at h1
      obtain ⟨d, hd, rfl⟩ := List.mem_map.mp h1
      exact toLower_mem_lower h2

theorem lowerString_eq_self {k : String}
    (h : ∀ c ∈ k.data, 97 ≤ c.toNat ∧ c.toNat ≤ 122) : lowerString k = k := by
  unfold lowerString
  have h2 : k.data.map Char.toLower = k.data :=
    (List.map_congr_left (fun c hc => toLower_eq_self_of_lower (h c hc).1)).trans
      (List.map_id _)
  rw [h2, string_mk_data]

theorem extractKeywordsRegex_append_sub {t jd k : String}
    (hk : k ∈ extractKeywordsRegex jd) :
    k ∈ extractKeywordsRegex (t ++ " " ++ k) ∧
      ∀ w ∈ extractKeywordsRegex t, w ∈ extractKeywordsRegex (t ++ " " ++ k) := by
  obtain ⟨hkne, hklen, hkstop, hkchars⟩ := extractKeywordsRegex_mem_chars hk
  have hkalpha : ∀ c ∈ k.data, isAsciiAlpha c = true := by
    intro c hc
    have := hkchars c hc
    simp only [isAsciiAlpha, Bool.or_eq_true, Bool.and_eq_true, decide_eq_true_eq]
    omega
  have hklow : k.data.map Char.toLower = k.data :=
    List.map_congr_left (fun c hc => toLower_eq_self_of_lower (hkchars c hc).1)
      |>.trans (List.map_id _)
  have hdata : (lowerString (t ++ " " ++ k)).data =
      (lowerString t).data ++ ' ' :: k.data := by
    show ((t ++ " " ++ k).data.map Char.toLower) =
      (t.data.map Char.toLower) ++ ' ' :: k.data
    rw [String.data_append, String.data_append, List.map_append, List.map_append]
    rw [show (" " : String).data.map Char.toLower = [' '] from rfl, hklow]
    simp
  have hruns : findallWordRuns (lowerString (t ++ " " ++ k)).data =
      findallWordRuns (lowerString t).data ++ [k.data] := by
    rw [hdata]
    unfold findallWordRuns
    rw [tokenScan_append_space]
    unfold findallWordRuns at *
    rw [findallWordRuns_alpha_run hkne hkalpha]
  constructor
  · unfold extractKeywordsRegex
    rw [mem_dedupFirst]
    apply List.mem_filter.mpr
    refine ⟨?_, ?_⟩
    · apply List.mem_map.mpr
      refine ⟨k.data, ?_, string_mk_data k⟩
      unfold findallAlpha3
      apply List.mem_filter.mpr
      refine ⟨?_, ?_⟩
      · rw [hruns]
        simp
      · simp only [decide_eq_true_eq]
        exact hklen
    · simp only [Bool.and_eq_true, Bool.not_eq_true', decide_eq_true_eq]
      exact ⟨hkstop, hklen⟩
  · intro w hw
    unfold extractKeywordsRegex at hw ⊢
    rw [mem_dedupFirst] at hw ⊢
    obtain ⟨hw1, hcond⟩ := List.mem_filter.mp hw
    apply List.mem_filter.mpr
    refine ⟨?_, hcond⟩
    obtain ⟨tok, htok, rfl⟩ := List.mem_map.mp hw1
    apply List.mem_map.mpr
    refine ⟨tok, ?_, rfl⟩
    unfold findallAlpha3 at htok ⊢
    obtain ⟨htok2, hlen2⟩ := List.mem_filter.mp htok
    apply List.mem_filter.mpr
    refine ⟨?_, hlen2⟩
    rw [hruns]
    exact List.mem_append_left _ htok2

theorem mem_comprehensive_none {rt w : String} :
    w ∈ extractResumeKeywordsComprehensive rt none ↔ w ∈ extractKeywordsRegex rt := by
  unfold extractResumeKeywordsComprehensive
  rw [mem_dedupFirst]
  simp

theorem mem_comprehensive_opt {rt : String} {d : ResumeData} {k : String}
    (hk : k ∈ extractKeywordsRegex d.optimized_summary) :
    k ∈ extractResumeKeywordsComprehensive rt (some d) := by
  have hne : d.optimized_summary ≠ "" := by
    intro h
    rw [h, show extractKeywordsRegex "" = [] from rfl] at hk
    exact absurd hk (List.not_mem_nil _)
  unfold extractResumeKeywordsComprehensive
  rw [mem_dedupFirst]
  apply List.mem_append_right
  apply List.mem_append_left
  apply List.mem_append_left
  apply List.mem_append_left
  apply List.mem_append_left
  apply List.mem_append_left
  apply List.mem_append_right
  rw [if_pos hne]
  exact hk



theorem keywordMatched_mono {ratio : String → String → ℚ} {R1 R2 : List String}
    (hsub : ∀ x ∈ R1, x ∈ R2) {k : String}
    (h : keywordMatched ratio R1 k = true) : keywordMatched ratio R2 k = true := by
  simp only [keywordMatched, Bool.or_eq_true, List.any_eq_true, List.elem_iff] at h ⊢
  rcases h with h | ⟨r, hr, hf⟩
  · exact Or.inl (hsub k h)
  · exact Or.inr ⟨r, hsub r hr, hf⟩

theorem length_filter_mono {p q : α → Bool} {l : List α}
    (h : ∀ a ∈ l, p a = true → q a = true) :
    (l.filter p).length ≤ (l.filter q).length := by
  induction l with
  | nil => simp
  | cons a as ih =>
    simp only [List.filter_cons]
    have ih2 := ih fun x hx => h x (List.mem_cons_of_mem _ hx)
    by_cases hp : p a
    · rw [if_pos hp, if_pos (h a (List.mem_cons_self _ _) hp)]
      simpa using ih2
    · rw [if_neg hp]
      split_ifs
      · exact le_trans ih2 (by simp)
      · exact ih2

theorem calcAts_mono {ratio : String → String → ℚ} {job R1 R2 : List String}
    (hsub : ∀ x ∈ R1, x ∈ R2) :
    (calcAtsScoreFuzzy ratio job R1).1 ≤ (calcAtsScoreFuzzy ratio job R2).1 := by
  rcases eq_or_ne job [] with rfl | hne
  · exact le_refl _
  · rw [calcAts_score_eq ratio hne R1, calcAts_score_eq ratio hne R2]
    have hm : (job.filter (keywordMatched ratio R1)).length ≤
        (job.filter (keywordMatched ratio R2)).length :=
      length_filter_mono fun a _ h => keywordMatched_mono hsub h
    have hd : (job.filter (keywordMatched ratio R1)).length * 100 / job.length ≤
        (job.filter (keywordMatched ratio R2)).length * 100 / job.length :=
      Nat.div_le_div_right (by omega)
    have hc : ((((job.filter (keywordMatched ratio R1)).length * 100) /
        job.length : ℕ) : ℤ) ≤
        ((((job.filter (keywordMatched ratio R2)).length * 100) / job.length : ℕ) : ℤ) := by
      exact_mod_cast hd
    exact max_le_max (le_refl _) (min_le_min (le_refl _) hc)

theorem findMissing_length_mono {ratio : String → String → ℚ}
    {job R1 R2 : List String} (hsub : ∀ x ∈ R1, x ∈ R2) :
    (findMissingKeywordsFuzzy ratio job R2).length ≤
      (findMissingKeywordsFuzzy ratio job R1).length := by
  apply length_filter_mono
  intro a _ h
  simp only [Bool.not_eq_true'] at h ⊢
  cases hm : keywordMatched ratio R1 a
  · rfl
  · rw [keywordMatched_mono hsub hm] at h
    exact h

/-- C4: appending a job keyword (as a separate word) to the resume text,
with the same job description and the regex extraction path, cannot
increase the number of missing keywords and cannot decrease the ATS
score. -/
theorem C4_keyword_append_monotone (ratio : String → String → ℚ)
    (ts : Option (String → ℚ)) (text jd k : String) (res1 res2 : AnalysisResult)
    (hk : k ∈ extractKeywordsRegex jd)
    (h1 : analyze ⟨ratio, none, ts⟩ none (some text) (some jd) = .ok res1)
    (h2 : analyze ⟨ratio, none, ts⟩ none (some (text ++ " " ++ k)) (some jd) = .ok res2) :
    res2.missing_keywords.length ≤ res1.missing_keywords.length ∧
      res1.ats_score ≤ res2.ats_score := by
  have hjdne : jd ≠ "" := by
    intro h
    rw [h, show extractKeywordsRegex "" = [] from rfl] at hk
    exact absurd hk (List.not_mem_nil _)
  obtain ⟨-, rfl⟩ := analyze_ok_iff.mp h1
  obtain ⟨-, rfl⟩ := analyze_ok_iff.mp h2
  have hJ : jobKeywordsOf ⟨ratio, none, ts⟩ (some jd) = extractKeywordsRegex jd := by
    unfold jobKeywordsOf jobDescTruthy extractJobKeywords
    simp [hjdne]
  have hrt1 : resolvedTextOf none (some text) = text := rfl
  have hrt2 : resolvedTextOf none (some (text ++ " " ++ k)) = text ++ " " ++ k := rfl
  have hsub : ∀ x ∈ extractResumeKeywordsComprehensive
      (resolvedTextOf none (some text)) none,
      x ∈ extractResumeKeywordsComprehensive
        (resolvedTextOf none (some (text ++ " " ++ k))) none := by
    intro x hx
    rw [hrt1, mem_comprehensive_none] at hx
    rw [hrt2, mem_comprehensive_none]
    exact (extractKeywordsRegex_append_sub hk).2 x hx
  constructor
  · rw [analyzeCore_missing, analyzeCore_missing, List.length_take, List.length_take,
      length_pySorted, length_pySorted, hJ]
    dsimp only
    have := @findMissing_length_mono ratio (extractKeywordsRegex jd) _ _ hsub
    rw [hrt1, hrt2] at this
    rw [hrt1, hrt2]
    omega
  · rw [analyzeCore_ats_score, analyzeCore_ats_score, hJ]
    dsimp only
    have := @calcAts_mono ratio (extractKeywordsRegex jd) _ _ hsub
    rw [hrt1, hrt2] at this
    rw [hrt1, hrt2]
    exact max_le_max (le_refl _) (min_le_min (le_refl _) this)

theorem C4_witness :
    ("docker" : String) ∈ extractKeywordsRegex "docker and python" ∧
    (((analyze ⟨fun _ _ => 0, none, none⟩ none (some "python developer")
        (some "docker and python")).toOption.getD dummyResult).missing_keywords.length ≥
      ((analyze ⟨fun _ _ => 0, none, none⟩ none (some ("python developer" ++ " " ++ "docker"))
        (some "docker and python")).toOption.getD dummyResult).missing_keywords.length) ∧
    (((analyze ⟨fun _ _ => 0, none, none⟩ none (some "python developer")
        (some "docker and python")).toOption.getD dummyResult).ats_score ≤
      ((analyze ⟨fun _ _ => 0, none, none⟩ none (some ("python developer" ++ " " ++ "docker"))
        (some "docker and python")).toOption.getD dummyResult).ats_score) := by
  refine ⟨by decide, ?_⟩
  have h := C4_keyword_append_monotone (fun _ _ => 0) none "python developer"
    "docker and python" "docker"
    ((analyze ⟨fun _ _ => 0, none, none⟩ none (some "python developer")
      (some "docker and python")).toOption.getD dummyResult)
    ((analyze ⟨fun _ _ => 0, none, none⟩ none (some ("python developer" ++ " " ++ "docker"))
      (some "docker and python")).toOption.getD dummyResult)
    (by decide) (by rfl) (by rfl)
  exact ⟨h.1, h.2⟩


/-- C6: when the structured data's `optimized_summary` yields the keyword
"heroku" and the job keyword set contains "heroku", the missing-keyword
list of a successful analysis does not contain "heroku": keyword
extraction covers the `optimized_summary` field. -/
theorem C6_optimized_summary_covered (env : Env) (d : ResumeData)
    (rt : Option String) (jd : String) (res : AnalysisResult)
    (hopt : "heroku" ∈ extractKeywordsRegex d.optimized_summary)
    (hjob : "heroku" ∈ jobKeywordsOf env (some jd))
    (h : analyze env (some d) rt (some jd) = .ok res) :
    "heroku" ∉ res.missing_keywords := by
  obtain ⟨-, rfl⟩ := analyze_ok_iff.mp h
  rw [analyzeCore_missing]
  intro hmem
  have hmem2 := List.take_subset 15 _ hmem
  rw [mem_pySorted] at hmem2
  obtain ⟨-, hcond⟩ := List.mem_filter.mp hmem2
  have hmemR : "heroku" ∈ extractResumeKeywordsComprehensive
      (resolvedTextOf (some d) rt) (some d) :=
    mem_comprehensive_opt hopt
  have hmatch : keywordMatched env.ratio (extractResumeKeywordsComprehensive
      (resolvedTextOf (some d) rt) (some d)) "heroku" = true := by
    simp only [keywordMatched, Bool.or_eq_true, List.elem_iff]
    exact Or.inl hmemR
  rw [hmatch] at hcond
  exact absurd hcond (by decide)

theorem C6_witness :
    ("heroku" : String) ∈ extractKeywordsRegex herokuData.optimized_summary ∧
    ("heroku" : String) ∈ jobKeywordsOf env0 (some "We run heroku and python daily") ∧
    "heroku" ∉ herokuRun.missing_keywords :=
  ⟨by decide, by decide,
    C6_optimized_summary_covered env0 herokuData none "We run heroku and python daily"
      herokuRun (by decide) (by decide) (by rfl)⟩

end ATS

namespace JobMatcher

open ATS

theorem isAsciiAlpha_of_lower {c : Char} (h97 : 97 ≤ c.toNat) (h122 : c.toNat ≤ 122) :
    isAsciiAlpha c = true := by
  simp only [isAsciiAlpha, Bool.or_eq_true, Bool.and_eq_true, decide_eq_true_eq]
  omega

theorem titleChars_inj {l1 l2 : List Char} (p : Bool)
    (h1 : ∀ c ∈ l1, 97 ≤ c.toNat ∧ c.toNat ≤ 122)
    (h2 : ∀ c ∈ l2, 97 ≤ c.toNat ∧ c.toNat ≤ 122)
    (he : titleChars p l1 = titleChars p l2) : l1 = l2 := by
  induction l1 generalizing l2 p with
  | nil =>
    cases l2 with
    | nil => rfl
    | cons b bs => simp [titleChars] at he
  | cons a as ih =>
    cases l2 with
    | nil => simp [titleChars] at he
    | cons b bs =>
      simp only [titleChars, List.cons.injEq] at he
      obtain ⟨hhead, htail⟩ := he
      have ha := h1 a (List.mem_cons_self _ _)
      have hb := h2 b (List.mem_cons_self _ _)
      rw [if_pos (isAsciiAlpha_of_lower ha.1 ha.2),
        if_pos (isAsciiAlpha_of_lower hb.1 hb.2)] at hhead
      have hab : a = b := by
        cases p with
        | false =>
          rw [if_neg (by decide : ¬ (false = true)),
            if_neg (by decide : ¬ (false = true))] at hhead
          exact toUpper_inj_lower ha hb hhead
        | true =>
          rw [if_pos rfl, if_pos rfl, toLower_eq_self_of_lower ha.1,
            toLower_eq_self_of_lower hb.1] at hhead
          exact hhead
      subst hab
      rw [ih (isAsciiAlpha a) (fun c hc => h1 c (List.mem_cons_of_mem _ hc))
        (fun c hc => h2 c (List.mem_cons_of_mem _ hc)) htail]

theorem titleCase_inj {w1 w2 : String}
    (h1 : ∀ c ∈ w1.data, 97 ≤ c.toNat ∧ c.toNat ≤ 122)
    (h2 : ∀ c ∈ w2.data, 97 ≤ c.toNat ∧ c.toNat ≤ 122)
    (he : titleCase w1 = titleCase w2) : w1 = w2 := by
  have hd : titleChars false w1.data = titleChars false w2.data :=
    congrArg String.data he
  have hdata := titleChars_inj false h1 h2 hd
  calc w1 = String.mk w1.data := rfl
    _ = String.mk w2.data := by rw [hdata]
    _ = w2 := rfl

theorem extractKeywordsFromText_mem_chars {text w : String}
    (hw : w ∈ extractKeywordsFromText text) :
    ∀ c ∈ w.data, 97 ≤ c.toNat ∧ c.toNat ≤ 122 := by
  simp only [extractKeywordsFromText] at hw
  have hw2 := List.take_subset 50 _ hw
  rw [mem_pySorted, mem_dedupFirst] at hw2
  obtain ⟨hmem, -⟩ := List.mem_filter.mp hw2
  obtain ⟨tok, htok, rfl⟩ := List.mem_map.mp hmem
  intro c hc
  have hc2 : c ∈ tok := hc
  have hres := @tokenScan_chars (lowerString text).data [] false true
    (by simp) _ htok _ hc2
  rcases hres with ⟨h1 | h1, h2⟩
  · exact absurd h1 (List.not_mem_nil _)
  · have hmap : (lowerString text).data = text.data.map Char.toLower := rfl
    rw [hmap] at h1
    obtain ⟨d, hd, rfl⟩ := List.mem_map.mp h1
    exact toLower_mem_lower h2

theorem findKeywords_disjoint {R J : List String}
    (hR : ∀ w ∈ R, ∀ c ∈ w.data, 97 ≤ c.toNat ∧ c.toNat ≤ 122)
    (hJ : ∀ w ∈ J, ∀ c ∈ w.data, 97 ≤ c.toNat ∧ c.toNat ≤ 122) :
    ∀ k, k ∈ findMissingKeywords R J → k ∈ findMatchedKeywords R J → False := by
  intro k hmiss hmatch
  simp only [findMissingKeywords] at hmiss
  simp only [findMatchedKeywords] at hmatch
  obtain ⟨kw1, h1, hk1⟩ := List.mem_map.mp hmiss
  obtain ⟨kw2, h2, hk2⟩ := List.mem_map.mp hmatch
  rw [mem_pySorted] at h1 h2
  obtain ⟨h1m, h1c⟩ := List.mem_filter.mp h1
  obtain ⟨h2m, h2c⟩ := List.mem_filter.mp h2
  rw [mem_dedupFirst] at h1m h2m
  have hkw : kw1 = kw2 := titleCase_inj (hJ kw1 h1m) (hR kw2 h2m) (hk1.trans hk2.symm)
  rw [Bool.not_eq_true'] at h1c
  rw [hkw] at h1c
  have hmem : R.contains kw2 = true := by
    show R.elem kw2 = true
    exact List.elem_iff.mpr h2m
  rw [h1c] at hmem
  exact absurd hmem (by decide)

/-- C5: for every resume data, job description and optional resume text,
the `missing_keywords` and `matched_keywords` lists returned by
`JobMatcherService.match` are disjoint: no keyword appears in both. -/
theorem C5_missing_matched_disjoint (rd : ResumeData) (jd : String)
    (rt : Option String) :
    List.Disjoint (runMatch rd jd rt).missing_keywords
      (runMatch rd jd rt).matched_keywords := by
  intro k hmiss hmatch
  simp only [runMatch] at hmiss hmatch
  exact findKeywords_disjoint
    (fun w hw => extractKeywordsFromText_mem_chars hw)
    (fun w hw => extractKeywordsFromText_mem_chars hw)
    k (List.take_subset 15 _ hmiss) (List.take_subset 15 _ hmatch)

end JobMatcher
